import Mathlib

/-!
Verification of the per-peer consensus agent implemented in
src/src/main/generic/consensus/BaseConsensusAgent.js.

The agent is embedded as an explicit state machine: the mutable fields of the
JavaScript object become the fields of `AgentState`, each message handler,
public request method and timer callback becomes a function
`AgentState → AgentState × List Output`, and a trace of the running agent is a
list of `Event`s folded through `step`.  The single-threaded cooperative
scheduling model of the source is reflected by making every run-to-completion
segment between `await` points one atomic step: in particular `_onTx`,
`_onBlock` and `_onHeader` are split into a start step (everything before the
`await this._processX(...)`) and a finish step (everything after it).

Collaborator classes that live in this repository but outside the file under
analysis (LimitInclusionHashSet, UniqueQueue, ThrottledQueue, Timers, HashSet,
Subscription, BaseInventoryMessage) are modelled from the specification; each
such definition carries a doc comment saying so.  External cryptographic
checks (interlink verification, proof verification) enter the proof-response
handlers as boolean parameters, mirroring the awaited results of the
corresponding collaborator calls.
-/

namespace CoreJs

/-- InvVector type tag (`InvVector.Type.BLOCK` / `InvVector.Type.TRANSACTION`). -/
inductive VType
  | block
  | transaction
deriving DecidableEq, Repr

/-- `InvVector`: pair of type tag and hash.  Hashes are modelled as naturals;
`hashCode()` of an InvVector is determined by both fields, so equality of the
model value is hash-code equality. -/
structure InvVector where
  ty : VType
  hashV : Nat
deriving DecidableEq, Repr

/-- The fields of a transaction the agent reads: hash, fee, serialized size,
sender and recipient addresses (addresses modelled as naturals). -/
structure Transaction where
  txhash : Nat
  fee : Nat
  serializedSize : Nat
  sender : Nat
  recipient : Nat
deriving DecidableEq, Repr

/-- `InvVector.fromTransaction`. -/
def InvVector.fromTransaction (tx : Transaction) : InvVector :=
  ⟨.transaction, tx.txhash⟩

/-- `FreeTransactionVector` (source lines 1543-1576): an InvVector paired with
the serialized size of its transaction. -/
structure FreeTransactionVector where
  inv : InvVector
  serializedSize : Nat
deriving DecidableEq, Repr

/-- `FreeTransactionVector.hashCode()` returns `this._inv.hashCode()`
(source lines 1556-1558); since InvVector equality models hash-code equality,
the hash code of a free vector is its underlying InvVector. -/
def FreeTransactionVector.hashCode (f : FreeTransactionVector) : InvVector :=
  f.inv

/-- Modelled from the spec (§3, §4.5): a subscription is one of the four
predefined predicate kinds; the Subscription class is repository code outside
the analysed file. -/
inductive Subscription
  | noneSub
  | anySub
  | addressesSub (addrs : List Nat)
  | minFeeSub (feePerByte : Nat)
deriving DecidableEq, Repr

/-- Modelled from the spec (§3): `matchesTransaction`; `ADDRESSES` matches
transactions touching any listed address, `MIN_FEE f` matches transactions
with fee/byte ≥ f (stated multiplicatively to stay in Nat). -/
def Subscription.matchesTransaction : Subscription → Transaction → Bool
  | .noneSub, _ => false
  | .anySub, _ => true
  | .addressesSub addrs, tx => addrs.any (fun a => tx.sender == a || tx.recipient == a)
  | .minFeeSub f, tx => decide (f * tx.serializedSize ≤ tx.fee)

/-- Modelled from the spec (§3): `matchesBlock`; only `NONE` rejects blocks. -/
def Subscription.matchesBlock : Subscription → Bool
  | .noneSub => false
  | _ => true

/-! ## Constants (source lines 1476-1540) -/

def REQUEST_THRESHOLD : Nat := 50
def REQUEST_THROTTLE : Nat := 500
def REQUEST_TIMEOUT : Nat := 10000
def REQUEST_TRANSACTIONS_WAITING_MAX : Nat := 5000
def TRANSACTIONS_AT_ONCE : Nat := 100
def TRANSACTIONS_PER_SECOND : Nat := 10
def FREE_TRANSACTIONS_AT_ONCE : Nat := 10
def FREE_TRANSACTIONS_PER_SECOND : Nat := 1
def FREE_TRANSACTION_SIZE_PER_INTERVAL : Nat := 15000
def TRANSACTION_RELAY_FEE_MIN : Nat := 1
def SUBSCRIPTION_CHANGE_GRACE_PERIOD : Nat := 3000
def KNOWS_OBJECT_AFTER_INV_DELAY : Nat := 3000
def KNOWN_OBJECTS_COUNT_MAX : Nat := 40000

/-- Modelled from the spec (§4.6, §4.12): `BaseInventoryMessage.VECTORS_MAX_COUNT`,
the maximum number of vectors per inventory message; the message class is
repository code outside the analysed file and the spec gives no numeric value,
so the repository's actual value 1000 is used. -/
def VECTORS_MAX_COUNT : Nat := 1000

/-! ## Timer registry

Modelled from the spec (§2, component 4): named one-shot timers; the Timers
class is repository code outside the analysed file.  A timer entry records the
name and the duration it was armed with; firing and real-time ordering are
driven by explicit events of the machine. -/

/-- The timer names the agent uses (the per-vector names
`block-request-<hash>` / `tx-request-<hash>` / `knows-block-<hash>` /
`knows-tx-<hash>` carry the hash as an argument). -/
inductive TimerName
  | getData
  | invT
  | blockRequest (h : Nat)
  | txRequest (h : Nat)
  | knowsBlock (h : Nat)
  | knowsTx (h : Nat)
deriving DecidableEq, Repr

/-- Modelled from the spec: `Timers.clearTimeout`. -/
def clearTimeout (n : TimerName) (t : List (TimerName × Nat)) : List (TimerName × Nat) :=
  t.filter (fun p => decide (p.1 ≠ n))

/-- Modelled from the spec: `Timers.setTimeout` (arming a name overwrites a
previous timer of the same name, which also gives `resetTimeout`). -/
def setTimeout (n : TimerName) (d : Nat) (t : List (TimerName × Nat)) : List (TimerName × Nat) :=
  (n, d) :: clearTimeout n t

/-- Whether a timer of the given name is currently armed. -/
def timerArmed (n : TimerName) (t : List (TimerName × Nat)) : Bool :=
  t.any (fun p => decide (p.1 = n))

/-! ## Bounded known-objects set

Modelled from the spec (§4.1): bounded set with FIFO eviction; the
LimitInclusionHashSet class is repository code outside the analysed file.
The list is kept oldest-first. -/

/-- Modelled from the spec (§4.1): `add` is a no-op on an existing element and
evicts oldest entries when the capacity is exceeded. -/
def knownAdd (v : InvVector) (l : List InvVector) : List InvVector :=
  if v ∈ l then l
  else
    let l' := l ++ [v]
    l'.drop (l'.length - KNOWN_OBJECTS_COUNT_MAX)

/-! ## HashSet (objectsInFlight / objectsThatFlew / objectsProcessing)

Modelled from the spec: insertion-ordered set; the HashSet class is repository
code outside the analysed file. -/

def hsAdd (v : InvVector) (l : List InvVector) : List InvVector :=
  if v ∈ l then l else l ++ [v]

def hsAddAll (vs : List InvVector) (l : List InvVector) : List InvVector :=
  vs.foldl (fun acc v => hsAdd v acc) l

def hsRemove (v : InvVector) (l : List InvVector) : List InvVector :=
  l.filter (fun w => decide (w ≠ v))

/-! ## Unique queue (blocksToRequest)

Modelled from the spec (§4.2): FIFO queue rejecting duplicate enqueues; the
UniqueQueue class is repository code outside the analysed file. -/

def uqEnqueue (v : InvVector) (l : List InvVector) : List InvVector :=
  if v ∈ l then l else l ++ [v]

def uqEnqueueAll (vs : List InvVector) (l : List InvVector) : List InvVector :=
  vs.foldl (fun acc v => uqEnqueue v acc) l

/-! ## Throttled queue

Modelled from the spec (§4.3): unique FIFO backlog plus a token counter; the
ThrottledQueue class is repository code outside the analysed file.  Token
refills are timer-driven in the source and are not modelled (no refill event
is needed by the claims); enqueueing beyond `maxBacklog` silently drops the
new element (the spec leaves the drop policy to the implementation). -/

structure TQ where
  backlog : List InvVector
  tokens : Nat
deriving DecidableEq, Repr

def TQ.enqueue (maxBacklog : Nat) (v : InvVector) (q : TQ) : TQ :=
  if v ∈ q.backlog then q
  else if maxBacklog ≤ q.backlog.length then q
  else { q with backlog := q.backlog ++ [v] }

def TQ.enqueueAll (maxBacklog : Nat) (vs : List InvVector) (q : TQ) : TQ :=
  vs.foldl (fun acc v => TQ.enqueue maxBacklog v acc) q

/-- Modelled from the spec (§4.6): `available` — how many elements a dequeue
could currently return. -/
def TQ.available (q : TQ) : Nat :=
  min q.backlog.length q.tokens

/-- Modelled from the spec (§4.3): `isAvailable()` is true iff the backlog is
non-empty and there are tokens. -/
def TQ.isAvailable (q : TQ) : Bool :=
  decide (q.backlog ≠ []) && decide (0 < q.tokens)

/-- Modelled from the spec (§4.3): `dequeueMulti(n)` returns
`min(n, backlog, tokens)` elements in FIFO order, consuming tokens. -/
def TQ.dequeueMulti (n : Nat) (q : TQ) : List InvVector × TQ :=
  let k := min n q.available
  (q.backlog.take k, ⟨q.backlog.drop k, q.tokens - k⟩)

def TQ.remove (v : InvVector) (q : TQ) : TQ :=
  { q with backlog := q.backlog.filter (fun w => decide (w ≠ v)) }

/-- The free-transaction relay queue: a throttled queue of
FreeTransactionVector, with hash-code based (i.e. underlying-InvVector based)
duplicate detection and removal.  Modelled from the spec (§4.3, §4.12). -/
structure FQ where
  backlog : List FreeTransactionVector
  tokens : Nat
deriving DecidableEq, Repr

def FQ.enqueue (maxBacklog : Nat) (f : FreeTransactionVector) (q : FQ) : FQ :=
  if q.backlog.any (fun g => decide (g.hashCode = f.hashCode)) then q
  else if maxBacklog ≤ q.backlog.length then q
  else { q with backlog := q.backlog ++ [f] }

/-- Removal keyed by an InvVector: works on the free queue because
`FreeTransactionVector.hashCode` equals the underlying InvVector's hash code
(source line 363's comment). -/
def FQ.removeByVector (v : InvVector) (q : FQ) : FQ :=
  { q with backlog := q.backlog.filter (fun f => decide (f.hashCode ≠ v)) }

/-! ## Pending direct requests (`_pendingRequests`)

A HashMap from InvVector to the list of waiting resolvers.  Resolvers are
identified by the ghost natural `rid` assigned at registration; settling a
resolver is an explicit `Output`. -/

def Pending := List (InvVector × List Nat)

def lookupPending (v : InvVector) (l : List (InvVector × List Nat)) : Option (List Nat) :=
  (l.find? (fun p => decide (p.1 = v))).map Prod.snd

def erasePending (v : InvVector) (l : List (InvVector × List Nat)) :
    List (InvVector × List Nat) :=
  l.filter (fun p => decide (p.1 ≠ v))

def pushPending (v : InvVector) (r : Nat) (l : List (InvVector × List Nat)) :
    List (InvVector × List Nat) :=
  l.map (fun p => if p.1 = v then (p.1, p.2 ++ [r]) else p)

/-- The per-vector request timer name: `block-request-<hash>` for block
vectors, `tx-request-<hash>` for transaction vectors (source line 841). -/
def reqTimerName (v : InvVector) : TimerName :=
  match v.ty with
  | .block => .blockRequest v.hashV
  | .transaction => .txRequest v.hashV

/-! ## Observable outputs of a step -/

inductive Outcome
  | resolvedO
  | timedOutO
  | notFoundO
deriving DecidableEq, Repr

inductive CloseCode
  | txNotMatchingSubscription
deriving DecidableEq, Repr

/-- What a step makes externally visible: settling a registered resolver,
sending `get-data` / `get-header` / `inv` on the channel, or closing the
channel. -/
inductive Output
  | settled (rid : Nat) (oc : Outcome)
  | getDataMsg (vs : List InvVector)
  | getHeaderMsg (vs : List InvVector)
  | invMsg (vs : List InvVector)
  | closeChannel (code : CloseCode)
deriving DecidableEq, Repr

/-! ## Agent state (constructor, source lines 11-125) -/

structure AgentState where
  knownObjects : List InvVector
  blocksToRequest : List InvVector
  txsToRequest : TQ
  objectsInFlight : List InvVector
  objectsThatFlew : List InvVector
  objectsProcessing : List InvVector
  waitingInvVectors : TQ
  waitingFreeInvVectors : FQ
  pendingRequests : List (InvVector × List Nat)
  timers : List (TimerName × Nat)
  nextRid : Nat
  localSubscription : Subscription
  remoteSubscription : Subscription
  lastSubscriptionChange : Nat
  synced : Bool
  willRequestHeaders : Bool
deriving DecidableEq, Repr

/-- The state after the constructor ran, given the peer's announced head hash
(line 25 adds its block vector to `knownObjects`).  Token counters start at
their capacities (`TRANSACTIONS_AT_ONCE + FREE_TRANSACTIONS_AT_ONCE`,
`TRANSACTIONS_AT_ONCE`, `FREE_TRANSACTIONS_AT_ONCE`).  `_willRequestHeaders`
returns false in the base class (line 661). -/
def initialState (peerHeadHash : Nat) : AgentState where
  knownObjects := [⟨.block, peerHeadHash⟩]
  blocksToRequest := []
  txsToRequest := ⟨[], TRANSACTIONS_AT_ONCE + FREE_TRANSACTIONS_AT_ONCE⟩
  objectsInFlight := []
  objectsThatFlew := []
  objectsProcessing := []
  waitingInvVectors := ⟨[], TRANSACTIONS_AT_ONCE⟩
  waitingFreeInvVectors := ⟨[], FREE_TRANSACTIONS_AT_ONCE⟩
  pendingRequests := []
  timers := []
  nextRid := 0
  localSubscription := .noneSub
  remoteSubscription := .noneSub
  lastSubscriptionChange := 0
  synced := false
  willRequestHeaders := false

/-! ## Request scheduler (`_requestData`, `requestVector`; source 510-631) -/

/-- `_doRequestData` (source lines 638-658): in header mode block vectors go
out via `get-header` and transaction vectors via `get-data`; otherwise one
`get-data` carries everything. -/
def doRequestData (headerMode : Bool) (vectors : List InvVector) : List Output :=
  if headerMode then
    [Output.getHeaderMsg (vectors.filter (fun v => decide (v.ty = .block))),
     Output.getDataMsg (vectors.filter (fun v => decide (v.ty = .transaction)))]
  else
    [Output.getDataMsg vectors]

/-- The transaction dequeue a successful `_requestData` performs after taking
blocks (source lines 619-621): only if fewer than `VECTORS_MAX_COUNT` block
vectors were taken, and only for the remaining capacity. -/
def requestDataDequeue (s : AgentState) : List InvVector × TQ :=
  if (s.blocksToRequest.take VECTORS_MAX_COUNT).length < VECTORS_MAX_COUNT then
    TQ.dequeueMulti (VECTORS_MAX_COUNT - (s.blocksToRequest.take VECTORS_MAX_COUNT).length)
      s.txsToRequest
  else ([], s.txsToRequest)

/-- The vectors a successful `_requestData` dequeues: up to
`VECTORS_MAX_COUNT`, blocks first (source lines 616-621). -/
def requestDataVectors (s : AgentState) : List InvVector :=
  s.blocksToRequest.take VECTORS_MAX_COUNT ++ (requestDataDequeue s).1

/-- `_requestData` (source lines 608-631). -/
def requestData (s : AgentState) : AgentState × List Output :=
  if s.objectsInFlight ≠ [] then (s, [])
  else if s.blocksToRequest = [] ∧ TQ.isAvailable s.txsToRequest = false then (s, [])
  else
    ({ s with blocksToRequest := s.blocksToRequest.drop VECTORS_MAX_COUNT,
              txsToRequest := (requestDataDequeue s).2,
              objectsInFlight := hsAddAll (requestDataVectors s) s.objectsInFlight,
              timers := setTimeout .getData REQUEST_TIMEOUT s.timers },
     doRequestData s.willRequestHeaders (requestDataVectors s))

/-- The state after `requestVector`'s enqueueing and `inv`-timer clearing,
before the threshold decision (source lines 511-516). -/
def requestVectorMid (vs : List InvVector) (s : AgentState) : AgentState :=
  { s with blocksToRequest :=
             uqEnqueueAll (vs.filter (fun v => decide (v.ty = .block))) s.blocksToRequest,
           txsToRequest :=
             TQ.enqueueAll REQUEST_TRANSACTIONS_WAITING_MAX
               (vs.filter (fun v => decide (v.ty = .transaction))) s.txsToRequest,
           timers := clearTimeout .invT s.timers }

/-- `requestVector(...vectors)` (source lines 510-526). -/
def requestVectorStep (vs : List InvVector) (s : AgentState) : AgentState × List Output :=
  let s1 := requestVectorMid vs s
  if REQUEST_THRESHOLD ≤ s1.blocksToRequest.length + TQ.available s1.txsToRequest then
    requestData s1
  else
    ({ s1 with timers := setTimeout .invT REQUEST_THROTTLE s1.timers }, [])

/-! ## Direct requests (`requestBlock` / `requestTransaction`; source 239-292) -/

/-- `requestBlock(hash)` (source lines 239-261); the fresh resolver gets the
ghost id `s.nextRid`. -/
def requestBlockStep (h : Nat) (s : AgentState) : AgentState × List Output :=
  let v : InvVector := ⟨.block, h⟩
  match lookupPending v s.pendingRequests with
  | some _ =>
    ({ s with pendingRequests := pushPending v s.nextRid s.pendingRequests,
              nextRid := s.nextRid + 1 }, [])
  | none =>
    ({ s with pendingRequests := s.pendingRequests ++ [(v, [s.nextRid])],
              nextRid := s.nextRid + 1,
              timers := setTimeout (.blockRequest h) REQUEST_TIMEOUT s.timers },
     [Output.getDataMsg [v]])

/-- `requestTransaction(hash)` (source lines 267-292): as `requestBlock`, but
the vector additionally enters `objectsInFlight` (and only then is `get-data`
sent) unless it is already there. -/
def requestTransactionStep (h : Nat) (s : AgentState) : AgentState × List Output :=
  let v : InvVector := ⟨.transaction, h⟩
  match lookupPending v s.pendingRequests with
  | some _ =>
    ({ s with pendingRequests := pushPending v s.nextRid s.pendingRequests,
              nextRid := s.nextRid + 1 }, [])
  | none =>
    let s1 := { s with pendingRequests := s.pendingRequests ++ [(v, [s.nextRid])],
                       nextRid := s.nextRid + 1 }
    if v ∈ s1.objectsInFlight then
      ({ s1 with timers := setTimeout (.txRequest h) REQUEST_TIMEOUT s1.timers }, [])
    else
      ({ s1 with objectsInFlight := s1.objectsInFlight ++ [v],
                 timers := setTimeout (.txRequest h) REQUEST_TIMEOUT s1.timers },
       [Output.getDataMsg [v]])

/-! ## Batch accounting (`_onObjectReceived` / `_noMoreData`; source 868-904) -/

/-- `_noMoreData` (source lines 886-904): clear the `getData` timer, move the
remaining in-flight vectors into `objectsThatFlew`, and either re-enter
`_requestData` or finish the batch. -/
def noMoreData (s : AgentState) : AgentState × List Output :=
  let s1 := { s with timers := clearTimeout .getData s.timers,
                     objectsThatFlew := hsAddAll s.objectsInFlight s.objectsThatFlew,
                     objectsInFlight := [] }
  if s1.blocksToRequest ≠ [] ∨ TQ.isAvailable s1.txsToRequest then requestData s1
  else (s1, [])

/-- `_onObjectReceived(vector)` (source lines 868-880). -/
def onObjectReceived (v : InvVector) (s : AgentState) : AgentState × List Output :=
  if s.objectsInFlight = [] then (s, [])
  else
    let s1 := { s with objectsInFlight := hsRemove v s.objectsInFlight }
    if s1.objectsInFlight ≠ [] then
      ({ s1 with timers := setTimeout .getData REQUEST_TIMEOUT s1.timers }, [])
    else noMoreData s1

/-- `_onObjectProcessed(vector)` (source lines 925-932). -/
def onObjectProcessed (v : InvVector) (s : AgentState) : AgentState :=
  { s with objectsProcessing := hsRemove v s.objectsProcessing }

/-! ## Response handlers (source 669-861) -/

/-- The unsolicited check of `_onTx` / `_onHeader` (source lines 783, 741):
the vector must be in flight or have flown. -/
def txSolicited (s : AgentState) (v : InvVector) : Bool :=
  decide (v ∈ s.objectsInFlight) || decide (v ∈ s.objectsThatFlew)

/-- The unsolicited check of `_onBlock` (source line 675): a pending direct
request also counts as solicited. -/
def blockSolicited (s : AgentState) (v : InvVector) : Bool :=
  (lookupPending v s.pendingRequests).isSome || txSolicited s v

/-- `_onBlock` up to and including the `objectsProcessing.add` before
`await _processBlock` (source lines 669-713).  The pending-request branch
(lines 690-700) settles every waiting resolver and returns; peer-head tracking
and mempool hydration touch only collaborator state. -/
def onBlockStart (h : Nat) (s : AgentState) : AgentState × List Output :=
  let v : InvVector := ⟨.block, h⟩
  match lookupPending v s.pendingRequests with
  | some rs =>
    ({ s with pendingRequests := erasePending v s.pendingRequests,
              timers := clearTimeout (.blockRequest h) s.timers },
     rs.map (fun r => Output.settled r .resolvedO))
  | none =>
    if txSolicited s v then
      let p := onObjectReceived v s
      ({ p.1 with objectsProcessing := hsAdd v p.1.objectsProcessing }, p.2)
    else (s, [])

/-- `_onBlock` after `await _processBlock` (source line 717). -/
def onBlockDone (h : Nat) (s : AgentState) : AgentState :=
  onObjectProcessed ⟨.block, h⟩ s

/-- `_onHeader` up to `await _processHeader` (source lines 736-756): like a
block but with no pending-request branch. -/
def onHeaderStart (h : Nat) (s : AgentState) : AgentState × List Output :=
  let v : InvVector := ⟨.block, h⟩
  if txSolicited s v then
    let p := onObjectReceived v s
    ({ p.1 with objectsProcessing := hsAdd v p.1.objectsProcessing }, p.2)
  else (s, [])

/-- `_onHeader` after the await (source line 760). -/
def onHeaderDone (h : Nat) (s : AgentState) : AgentState :=
  onObjectProcessed ⟨.block, h⟩ s

/-- The guard of the subscription-violation branch, verbatim from source line
812: close iff the transaction does not match the local subscription AND
`lastSubscriptionChange + SUBSCRIPTION_CHANGE_GRACE_PERIOD > Date.now()`. -/
def txSubscriptionCloseGuard (matchesTx : Bool) (lastSubscriptionChange now : Nat) : Bool :=
  !matchesTx && decide (now < lastSubscriptionChange + SUBSCRIPTION_CHANGE_GRACE_PERIOD)

/-- Modelled from the spec (§4.9 step 6 and §7): the close condition the
specification states, namely that the grace period since the last local
subscription change has already ELAPSED when the non-matching transaction
arrives. -/
def specTxSubscriptionCloseGuard (matchesTx : Bool) (lastSubscriptionChange now : Nat) : Bool :=
  !matchesTx && decide (lastSubscriptionChange + SUBSCRIPTION_CHANGE_GRACE_PERIOD < now)

/-- `_onTx` from the point right after `await _processTransaction` (source
lines 801-818): resolve a pending direct request, otherwise possibly close for
a non-matching subscription, then `_onObjectProcessed`.  `now` is the value
`Date.now()` returns when this code runs.  When `_onTx` suspended at the await
this is a separate resumption step; when it did not (the local subscription
does not match the transaction, line 797), `onTxStart` invokes it in the same
atomic step. -/
def onTxDone (tx : Transaction) (now : Nat) (s : AgentState) : AgentState × List Output :=
  let v := InvVector.fromTransaction tx
  let p :=
    match lookupPending v s.pendingRequests with
    | some rs =>
      ({ s with pendingRequests := erasePending v s.pendingRequests,
                timers := clearTimeout (.txRequest tx.txhash) s.timers },
       rs.map (fun r => Output.settled r .resolvedO))
    | none =>
      if txSubscriptionCloseGuard (s.localSubscription.matchesTransaction tx)
          s.lastSubscriptionChange now then
        (s, [Output.closeChannel .txNotMatchingSubscription])
      else (s, [])
  (onObjectProcessed v p.1, p.2)

/-- `_onTx` (source lines 777-818): unsolicited check, `_onObjectReceived`,
mark as processing.  The handler suspends at `await _processTransaction` only
when the local subscription matches the transaction (line 797), and the
post-await code then runs as the separate `txDone` resumption event; for a
non-matching transaction there is no suspension point, so the whole handler
(including the post-await code, with `Date.now()` reading `now`) runs
atomically in this one step. -/
def onTxStart (tx : Transaction) (now : Nat) (s : AgentState) : AgentState × List Output :=
  let v := InvVector.fromTransaction tx
  if txSolicited s v then
    let p := onObjectReceived v s
    let s1 := { p.1 with objectsProcessing := hsAdd v p.1.objectsProcessing }
    if s.localSubscription.matchesTransaction tx then (s1, p.2)
    else
      let q := onTxDone tx now s1
      (q.1, p.2 ++ q.2)
  else (s, [])

/-- One iteration of the `_onNotFound` loop (source lines 837-860). -/
def notFoundOne (s : AgentState) (v : InvVector) : AgentState × List Output :=
  let p :=
    match lookupPending v s.pendingRequests with
    | some rs =>
      ({ s with pendingRequests := erasePending v s.pendingRequests,
                timers := clearTimeout (reqTimerName v) s.timers },
       rs.map (fun r => Output.settled r .notFoundO))
    | none => (s, [])
  if v ∈ p.1.objectsInFlight then
    let q := onObjectReceived v p.1
    (q.1, p.2 ++ q.2)
  else p

/-- `_onNotFound(msg)` (source lines 834-861). -/
def onNotFound (vs : List InvVector) (s : AgentState) : AgentState × List Output :=
  vs.foldl (fun acc v =>
    let p := notFoundOne acc.1 v
    (p.1, acc.2 ++ p.2)) (s, [])

/-! ## Inv ingress, relay, subscription (source 321-526) -/

/-- The bookkeeping loop of `__onInv` (source lines 446-450): every advertised
vector becomes known and leaves both relay out-queues.  The remainder of the
handler only reads agent state (lookups and subclass/coordinator
notifications). -/
def onInvStep (vs : List InvVector) (s : AgentState) : AgentState :=
  vs.foldl (fun st v =>
    { st with knownObjects := knownAdd v st.knownObjects,
              waitingInvVectors := TQ.remove v st.waitingInvVectors,
              waitingFreeInvVectors := FQ.removeByVector v st.waitingFreeInvVectors }) s

/-- `relayTransaction(transaction)` (source lines 321-353).  The free
classification `fee / serializedSize < TRANSACTION_RELAY_FEE_MIN` with
`TRANSACTION_RELAY_FEE_MIN = 1` is `fee < serializedSize` (real-valued
division; serialized sizes are positive). -/
def relayTransactionStep (tx : Transaction) (s : AgentState) : AgentState :=
  if s.remoteSubscription.matchesTransaction tx = false then s
  else
    let v := InvVector.fromTransaction tx
    if v ∈ s.knownObjects then s
    else
      let s1 :=
        if tx.fee < TRANSACTION_RELAY_FEE_MIN * tx.serializedSize then
          { s with waitingFreeInvVectors :=
              FQ.enqueue REQUEST_TRANSACTIONS_WAITING_MAX (FreeTransactionVector.mk v tx.serializedSize) s.waitingFreeInvVectors }
        else
          { s with waitingInvVectors :=
              TQ.enqueue REQUEST_TRANSACTIONS_WAITING_MAX v s.waitingInvVectors }
      { s1 with timers := setTimeout (.knowsTx tx.txhash) KNOWS_OBJECT_AFTER_INV_DELAY s1.timers }

/-- `removeTransaction(transaction)` (source lines 358-365): drop the vector
from both relay queues; hash-code equality makes the removal reach the
FreeTransactionVector wrapper in the free queue. -/
def removeTransactionStep (tx : Transaction) (s : AgentState) : AgentState :=
  let v := InvVector.fromTransaction tx
  { s with waitingFreeInvVectors := FQ.removeByVector v s.waitingFreeInvVectors,
           waitingInvVectors := TQ.remove v s.waitingInvVectors }

/-- `relayBlock(block)` (source lines 205-233), taking the block's hash. -/
def relayBlockStep (h : Nat) (s : AgentState) : AgentState × List Output :=
  if s.synced = false then (s, [])
  else if s.remoteSubscription.matchesBlock = false then (s, [])
  else
    let v : InvVector := ⟨.block, h⟩
    if v ∈ s.knownObjects then (s, [])
    else
      let p := TQ.dequeueMulti (VECTORS_MAX_COUNT - 1) s.waitingInvVectors
      ({ s with waitingInvVectors := p.2,
                timers := setTimeout (.knowsBlock h) KNOWS_OBJECT_AFTER_INV_DELAY s.timers },
       [Output.invMsg (v :: p.1)])

/-- `_sendWaitingInvVectors` (source lines 294-300). -/
def sendWaitingStep (s : AgentState) : AgentState × List Output :=
  let p := TQ.dequeueMulti VECTORS_MAX_COUNT s.waitingInvVectors
  ({ s with waitingInvVectors := p.2 },
   if p.1 ≠ [] then [Output.invMsg p.1] else [])

/-- The drain loop of `_sendFreeWaitingInvVectors` (source lines 303-310):
dequeue while fewer than `VECTORS_MAX_COUNT` vectors were collected, the queue
`isAvailable`, and the cumulative size is below the per-interval budget. -/
def sendFreeLoop (backlog : List FreeTransactionVector) (tokens : Nat)
    (count size : Nat) : List InvVector × List FreeTransactionVector × Nat :=
  match backlog, tokens with
  | f :: rest, t + 1 =>
    if count < VECTORS_MAX_COUNT ∧ size < FREE_TRANSACTION_SIZE_PER_INTERVAL then
      let r := sendFreeLoop rest t (count + 1) (size + f.serializedSize)
      (f.inv :: r.1, r.2)
    else ([], f :: rest, t + 1)
  | b, t => ([], b, t)

/-- `_sendFreeWaitingInvVectors` (source lines 302-315). -/
def sendFreeStep (s : AgentState) : AgentState × List Output :=
  let r := sendFreeLoop s.waitingFreeInvVectors.backlog s.waitingFreeInvVectors.tokens 0 0
  ({ s with waitingFreeInvVectors := ⟨r.2.1, r.2.2⟩ },
   if r.1 ≠ [] then [Output.invMsg r.1] else [])

/-- `subscribe(subscription)` → `_subscribe` (source lines 183-199):
records the new local subscription and the change time. -/
def subscribeStep (sub : Subscription) (now : Nat) (s : AgentState) : AgentState :=
  { s with localSubscription := sub, lastSubscriptionChange := now }

/-! ## Events and the step function -/

/-- Every operation of the running agent the claims quantify over: public API
calls, inbound messages (with handler resumptions after awaits as separate
events), and timer callbacks.  Timer-callback events fire only when the named
timer is armed, and a `txDone` resumption only when an `_onTx` actually
suspended at `await _processTransaction` (its vector is still marked
processing); an `_onTx` whose transaction does not match the local
subscription has no suspension point and runs atomically within its `txMsg`
event, which therefore carries the `Date.now()` value `now`. -/
inductive Event
  | reqBlock (h : Nat)
  | reqTx (h : Nat)
  | reqVector (vs : List InvVector)
  | invTimer
  | getDataTimer
  | blockReqTimeout (h : Nat)
  | txReqTimeout (h : Nat)
  | knowsBlockTimer (h : Nat)
  | knowsTxTimer (h : Nat)
  | blockMsg (h : Nat)
  | blockDone (h : Nat)
  | headerMsg (h : Nat)
  | headerDone (h : Nat)
  | txMsg (tx : Transaction) (now : Nat)
  | txDone (tx : Transaction) (now : Nat)
  | notFoundMsg (vs : List InvVector)
  | invIngress (vs : List InvVector)
  | subscribeEv (sub : Subscription) (now : Nat)
  | relayTx (tx : Transaction)
  | removeTx (tx : Transaction)
  | relayBlockEv (h : Nat)
  | sendWaiting
  | sendFree
deriving DecidableEq, Repr

/-- The per-vector request-timeout callback (source lines 249-258 / 280-289):
if the pending entry is still there, remove it and reject every resolver with
Timeout; `objectsInFlight` is not touched. -/
def reqTimeoutBody (v : InvVector) (s : AgentState) : AgentState × List Output :=
  match lookupPending v s.pendingRequests with
  | none => (s, [])
  | some rs =>
    ({ s with pendingRequests := erasePending v s.pendingRequests },
     rs.map (fun r => Output.settled r .timedOutO))

/-- One atomic step of the agent. -/
def step (s : AgentState) : Event → AgentState × List Output
  | .reqBlock h => requestBlockStep h s
  | .reqTx h => requestTransactionStep h s
  | .reqVector vs => requestVectorStep vs s
  | .invTimer =>
    if timerArmed .invT s.timers then
      requestData { s with timers := clearTimeout .invT s.timers }
    else (s, [])
  | .getDataTimer =>
    if timerArmed .getData s.timers then
      noMoreData { s with timers := clearTimeout .getData s.timers }
    else (s, [])
  | .blockReqTimeout h =>
    if timerArmed (.blockRequest h) s.timers then
      reqTimeoutBody ⟨.block, h⟩ { s with timers := clearTimeout (.blockRequest h) s.timers }
    else (s, [])
  | .txReqTimeout h =>
    if timerArmed (.txRequest h) s.timers then
      reqTimeoutBody ⟨.transaction, h⟩ { s with timers := clearTimeout (.txRequest h) s.timers }
    else (s, [])
  | .knowsBlockTimer h =>
    if timerArmed (.knowsBlock h) s.timers then
      ({ s with timers := clearTimeout (.knowsBlock h) s.timers,
                knownObjects := knownAdd ⟨.block, h⟩ s.knownObjects }, [])
    else (s, [])
  | .knowsTxTimer h =>
    if timerArmed (.knowsTx h) s.timers then
      ({ s with timers := clearTimeout (.knowsTx h) s.timers,
                knownObjects := knownAdd ⟨.transaction, h⟩ s.knownObjects }, [])
    else (s, [])
  | .blockMsg h => onBlockStart h s
  | .blockDone h => (onBlockDone h s, [])
  | .headerMsg h => onHeaderStart h s
  | .headerDone h => (onHeaderDone h s, [])
  | .txMsg tx now => onTxStart tx now s
  | .txDone tx now =>
    if InvVector.fromTransaction tx ∈ s.objectsProcessing then onTxDone tx now s
    else (s, [])
  | .notFoundMsg vs => onNotFound vs s
  | .invIngress vs => (onInvStep vs s, [])
  | .subscribeEv sub now => (subscribeStep sub now s, [])
  | .relayTx tx => (relayTransactionStep tx s, [])
  | .removeTx tx => (removeTransactionStep tx s, [])
  | .relayBlockEv h => relayBlockStep h s
  | .sendWaiting => sendWaitingStep s
  | .sendFree => sendFreeStep s

/-- Run a trace of events, collecting all outputs. -/
def run (s : AgentState) : List Event → AgentState × List Output
  | [] => (s, [])
  | e :: es =>
    let p := step s e
    let q := run p.1 es
    (q.1, p.2 ++ q.2)

/-- The resolver settlements among a list of outputs. -/
def settledOf (os : List Output) : List (Nat × Outcome) :=
  os.filterMap (fun o => match o with | .settled r oc => some (r, oc) | _ => none)

/-- The resolver ids settled among a list of outputs. -/
def settledRids (os : List Output) : List Nat :=
  os.filterMap (fun o => match o with | .settled r _ => some r | _ => none)

/-! ## Proof request handlers (source 1032-1429)

The single-slot pending state of each proof family is independent of the rest
of the agent state, so these handlers are embedded standalone.  Results of the
awaited collaborator calls (`knownBlock.isInterlinkSuccessorOf`,
`proof.verify()`, `block.verify(time)`, `proof.root()`) appear as boolean /
optional fields or parameters. -/

/-- A block inside a chain proof: its hash, height, and the result of its
`verify(time)` call. -/
structure ProofBlock where
  hashV : Nat
  height : Nat
  verifyOk : Bool
deriving DecidableEq, Repr

/-- A chain proof: tail block, head block, all blocks, and the result of the
proof's structural `verify()`.  `blocks = []` models `proof.length === 0`. -/
structure ChainProof where
  tail : ProofBlock
  headB : ProofBlock
  blocks : List ProofBlock
  verifyOk : Bool
deriving DecidableEq, Repr

/-- A `block-proof` message; `none` models `!msg.hasProof()`. -/
structure BlockProofMessage where
  proofOpt : Option ChainProof
deriving DecidableEq, Repr

/-- Which request populated `_blockProofRequest`: `_getBlockProof` stores
`blockHashToProve` (and no height), `_getBlockProofAt` stores
`blockHeightToProve` (and no hash). -/
inductive BlockProofKind
  | byHash (h : Nat)
  | byHeight (ht : Nat)
deriving DecidableEq, Repr

structure BlockProofRequest where
  kind : BlockProofKind
deriving DecidableEq, Repr

inductive ProofCloseCode
  | invalidBlockProof
  | invalidTransactionProof
deriving DecidableEq, Repr

/-- Outcome of `_onBlockProof`: dropped, locally rejected (with the reason of
the corresponding `reject(new Error(...))`), rejected with the channel closed,
or resolved with the proof's tail. -/
inductive BlockProofOutcome
  | unsolicited
  | rejectedNoProof
  | rejectedInvalidTail
  | rejectedInvalidHead
  | closedInvalidProof
  | resolvedTail (b : ProofBlock)
deriving DecidableEq, Repr

/-- Which outcomes of `_onBlockProof` close the channel, and with which code:
only `closedInvalidProof` does (source lines 1151, 1160). -/
def BlockProofOutcome.closes : BlockProofOutcome → Option ProofCloseCode
  | .closedInvalidProof => some .invalidBlockProof
  | _ => none

/-- `proof.tail.hash().equals(blockHashToProve)` (source line 1135): for a
by-height request `blockHashToProve` is undefined and `Hash.equals(undefined)`
is false. -/
def tailHashEq : BlockProofKind → ProofBlock → Bool
  | .byHash h, tail => decide (tail.hashV = h)
  | .byHeight _, _ => false

/-- `proof.tail.height === blockHeightToProve` (source line 1135, negated
there): for a by-hash request `blockHeightToProve` is undefined and a number
is never strictly equal to undefined. -/
def tailHeightEq : BlockProofKind → ProofBlock → Bool
  | .byHash _, _ => false
  | .byHeight ht, tail => decide (tail.height = ht)

/-- `_onBlockProof(msg)` (source lines 1116-1167); `interlinkOk` is the result
of `await knownBlock.isInterlinkSuccessorOf(proof.head)`. -/
def onBlockProof (req : Option BlockProofRequest) (interlinkOk : Bool)
    (msg : BlockProofMessage) : Option BlockProofRequest × BlockProofOutcome :=
  match req with
  | none => (none, .unsolicited)
  | some r =>
    match msg.proofOpt with
    | none => (none, .rejectedNoProof)
    | some proof =>
      if proof.blocks = [] then (none, .rejectedNoProof)
      else if tailHashEq r.kind proof.tail = false ∧ tailHeightEq r.kind proof.tail = false then
        (none, .rejectedInvalidTail)
      else if interlinkOk = false then (none, .rejectedInvalidHead)
      else if proof.verifyOk = false then (none, .closedInvalidProof)
      else if proof.blocks.all (fun b => b.verifyOk) = false then (none, .closedInvalidProof)
      else (none, .resolvedTail proof.tail)

/-- A transactions proof: its transactions and the result of `proof.root()`
(`none` models the call throwing, caught at source lines 1296-1300). -/
structure TxProof where
  transactions : List Transaction
  rootOpt : Option Nat
deriving DecidableEq, Repr

/-- A `transactions-proof` message; `none` models `!msg.hasProof()`. -/
structure TransactionsProofMessage where
  blockHash : Nat
  proofOpt : Option TxProof
deriving DecidableEq, Repr

/-- `_transactionsProofRequest` contents: the requested addresses and hashes
(the one not requested defaults to `[]`, source line 1277), and the reference
block's hash and body hash. -/
structure TransactionsProofRequest where
  addresses : List Nat
  hashes : List Nat
  blockHash : Nat
  blockBodyHash : Nat
deriving DecidableEq, Repr

/-- Outcome of `_onTransactionsProof`. -/
inductive TxProofOutcome
  | unsolicited
  | rejectedNoProof
  | rejectedInvalidBlock
  | closedInvalidRoot
  | closedUnwantedTransactions
  | resolvedTxs (txs : List Transaction)
deriving DecidableEq, Repr

/-- Which outcomes of `_onTransactionsProof` close the channel: the root
mismatch and the unwanted-transaction case, both with
`INVALID_TRANSACTION_PROOF` (source lines 1303, 1313). -/
def TxProofOutcome.closes : TxProofOutcome → Option ProofCloseCode
  | .closedInvalidRoot => some .invalidTransactionProof
  | .closedUnwantedTransactions => some .invalidTransactionProof
  | _ => none

/-- One transaction matches the request (source lines 1310-1311): some
requested address is its sender or recipient, or some requested hash is its
hash. -/
def txWanted (addresses hashes : List Nat) (tx : Transaction) : Bool :=
  addresses.any (fun a => decide (tx.sender = a) || decide (tx.recipient = a))
    || hashes.any (fun hh => decide (tx.txhash = hh))

/-- `_onTransactionsProof(msg)` (source lines 1267-1321). -/
def onTransactionsProof (req : Option TransactionsProofRequest)
    (msg : TransactionsProofMessage) : Option TransactionsProofRequest × TxProofOutcome :=
  match req with
  | none => (none, .unsolicited)
  | some r =>
    match msg.proofOpt with
    | none => (none, .rejectedNoProof)
    | some proof =>
      if r.blockHash ≠ msg.blockHash then (none, .rejectedInvalidBlock)
      else if proof.rootOpt ≠ some r.blockBodyHash then (none, .closedInvalidRoot)
      else if proof.transactions.all (txWanted r.addresses r.hashes) then
        (none, .resolvedTxs proof.transactions)
      else (none, .closedUnwantedTransactions)

/-! # Claims -/

/-- C2: the claim (and the spec) state that `_onTx` closes the channel with
`TRANSACTION_NOT_MATCHING_SUBSCRIPTION` exactly when a non-matching,
non-directly-requested transaction arrives MORE than
`SUBSCRIPTION_CHANGE_GRACE_PERIOD` after the last subscription change.  The
source's guard (line 812) is the literal opposite: it closes while still
WITHIN the grace period.  At `lastSubscriptionChange = 0` a non-matching
transaction at `now = 1000` makes the code close (the spec guard would not),
and at `now = 5000` the code does not close (the spec guard would); the trace
conjunct runs the machine on a solicited non-matching transaction arriving at
`now = 1000` (its `_onTx` runs atomically, the subscription not matching) and
observes the close. -/
theorem c2_grace_period_divergence :
    txSubscriptionCloseGuard false 0 1000 = true ∧
    specTxSubscriptionCloseGuard false 0 1000 = false ∧
    txSubscriptionCloseGuard false 0 5000 = false ∧
    specTxSubscriptionCloseGuard false 0 5000 = true ∧
    Output.closeChannel .txNotMatchingSubscription ∈
      (run (initialState 0)
        [.reqVector [⟨.transaction, 1⟩], .invTimer,
         .txMsg ⟨1, 0, 1, 0, 0⟩ 1000]).2 := by
  decide

/-- C7: while a `getBlockProof(h, knownBlock)` request (a by-hash request) is
pending, a response carrying a non-empty proof whose tail hash differs from
`h` clears the pending slot and rejects with "Invalid tail block" without
closing the channel; and every outcome of `_onBlockProof` that closes the
channel closes it with `INVALID_BLOCK_PROOF` and arises only from a failed
structural `verify()` or a failed per-block `verify(time)`. -/
theorem c7_invalid_tail_rejects_without_close :
    (∀ (h : Nat) (intOk : Bool) (msg : BlockProofMessage) (p : ChainProof),
      msg.proofOpt = some p → p.blocks ≠ [] → p.tail.hashV ≠ h →
      onBlockProof (some ⟨.byHash h⟩) intOk msg = (none, .rejectedInvalidTail) ∧
      BlockProofOutcome.closes .rejectedInvalidTail = none) ∧
    (∀ (req : Option BlockProofRequest) (intOk : Bool) (msg : BlockProofMessage)
      (c : ProofCloseCode),
      ((onBlockProof req intOk msg).2).closes = some c →
      c = .invalidBlockProof ∧ ∃ p, msg.proofOpt = some p ∧
        (p.verifyOk = false ∨ p.blocks.all (fun b => b.verifyOk) = false)) := by
  constructor
  · intro h intOk msg p hmsg hne htail
    refine ⟨?_, rfl⟩
    obtain ⟨po⟩ := msg
    simp only at hmsg
    subst hmsg
    simp only [onBlockProof]
    rw [if_neg hne, if_pos]
    exact ⟨by simp [tailHashEq, htail], rfl⟩
  · intro req intOk msg c hc
    cases req with
    | none => simp [onBlockProof, BlockProofOutcome.closes] at hc
    | some r =>
      obtain ⟨po⟩ := msg
      cases po with
      | none => simp [onBlockProof, BlockProofOutcome.closes] at hc
      | some proof =>
        simp only [onBlockProof] at hc
        split_ifs at hc with h1 h2 h3 h4 h5
        · simp [BlockProofOutcome.closes] at hc
        · simp [BlockProofOutcome.closes] at hc
        · simp [BlockProofOutcome.closes] at hc
        · simp only [BlockProofOutcome.closes, Option.some.injEq] at hc
          exact ⟨hc.symm, proof, rfl, Or.inl h4⟩
        · simp only [BlockProofOutcome.closes, Option.some.injEq] at hc
          exact ⟨hc.symm, proof, rfl, Or.inr h5⟩
        · simp [BlockProofOutcome.closes] at hc

/-- C7 witness: a pending by-hash request for hash 1 answered with a
non-empty proof whose tail hash is 2. -/
theorem c7_invalid_tail_witness :
    onBlockProof (some ⟨.byHash 1⟩) true
        ⟨some (ChainProof.mk ⟨2, 5, true⟩ ⟨9, 9, true⟩ [⟨2, 5, true⟩] true)⟩
      = (none, .rejectedInvalidTail) :=
  (c7_invalid_tail_rejects_without_close.1 1 true
    ⟨some (ChainProof.mk ⟨2, 5, true⟩ ⟨9, 9, true⟩ [⟨2, 5, true⟩] true)⟩
    (ChainProof.mk ⟨2, 5, true⟩ ⟨9, 9, true⟩ [⟨2, 5, true⟩] true)
    rfl (by decide) (by decide)).1

/-- C8: with a pending transactions-proof request, a message carrying a proof
whose reference block hash matches and whose root equals the block's body
hash resolves with `proof.transactions` when every transaction matches a
requested address or hash, and otherwise rejects and closes the channel with
`INVALID_TRANSACTION_PROOF`. -/
theorem c8_transactions_proof_validation :
    ∀ (r : TransactionsProofRequest) (msg : TransactionsProofMessage) (proof : TxProof),
      msg.proofOpt = some proof →
      r.blockHash = msg.blockHash →
      proof.rootOpt = some r.blockBodyHash →
      ((∀ tx ∈ proof.transactions, txWanted r.addresses r.hashes tx = true) →
        onTransactionsProof (some r) msg = (none, .resolvedTxs proof.transactions)) ∧
      ((∃ tx ∈ proof.transactions, txWanted r.addresses r.hashes tx = false) →
        onTransactionsProof (some r) msg = (none, .closedUnwantedTransactions) ∧
        TxProofOutcome.closes .closedUnwantedTransactions = some .invalidTransactionProof) := by
  intro r msg proof hpo hbh hroot
  obtain ⟨mh, po⟩ := msg
  simp only at hpo hbh
  subst hpo
  constructor
  · intro hall
    simp only [onTransactionsProof]
    rw [if_neg (by simp [hbh]), if_neg (by simp [hroot]), if_pos (List.all_eq_true.mpr hall)]
  · rintro ⟨tx, htx, hw⟩
    refine ⟨?_, rfl⟩
    simp only [onTransactionsProof]
    rw [if_neg (by simp [hbh]), if_neg (by simp [hroot]), if_neg]
    intro hall
    have := List.all_eq_true.mp hall tx htx
    rw [hw] at this
    exact Bool.false_ne_true this

/-! ## Helper lemmas -/

theorem mem_hsAdd {v w : InvVector} {l : List InvVector} :
    v ∈ hsAdd w l ↔ v = w ∨ v ∈ l := by
  unfold hsAdd
  split
  · constructor
    · exact Or.inr
    · rintro (rfl | hv)
      · assumption
      · exact hv
  · simp [or_comm]

theorem mem_hsAddAll {v : InvVector} {vs l : List InvVector} :
    v ∈ hsAddAll vs l ↔ v ∈ vs ∨ v ∈ l := by
  induction vs generalizing l with
  | nil => simp [hsAddAll]
  | cons w ws ih =>
    show v ∈ hsAddAll ws (hsAdd w l) ↔ _
    rw [ih, mem_hsAdd]
    simp [List.mem_cons]
    tauto

theorem filter_ne_self {α : Type} [DecidableEq α] {l : List α} {v : α} (h : v ∉ l) :
    l.filter (fun w => decide (w ≠ v)) = l := by
  apply List.filter_eq_self.mpr
  intro a ha
  simp only [decide_eq_true_eq]
  rintro rfl
  exact h ha

theorem filter_ne_append {α : Type} [DecidableEq α] {l : List α} {v : α} (h : v ∉ l) :
    (l ++ [v]).filter (fun w => decide (w ≠ v)) = l := by
  rw [List.filter_append, filter_ne_self h]
  simp

theorem lookupPending_erase (v : InvVector) (l : List (InvVector × List Nat)) :
    lookupPending v (erasePending v l) = none := by
  simp only [lookupPending, erasePending, Option.map_eq_none']
  rw [List.find?_eq_none]
  intro p hp
  have h2 := (List.mem_filter.mp hp).2
  simp only [decide_eq_true_eq] at h2 ⊢
  exact h2

/-! ## Claims C5, C6, C10 -/

/-- C5 counterexample: at the initial state `objectsInFlight` is empty, yet
`_requestData` returns with no effect and without arming the `getData` timer
(both request queues being empty), contradicting the claim's unconditional
"otherwise dequeues ... and arms the 'getData' timer". -/
theorem c5_requestdata_counterexample :
    (initialState 0).objectsInFlight = [] ∧
    requestData (initialState 0) = (initialState 0, []) ∧
    timerArmed .getData (requestData (initialState 0)).1.timers = false := by
  decide

/-- C5 amended: `requestVector` appends block vectors to `blocksToRequest` and
transaction vectors to `txsToRequest` and clears the pending `inv` timer
(together: `requestVectorMid`), then calls `_requestData` immediately iff
`|blocksToRequest| + available(txsToRequest) ≥ REQUEST_THRESHOLD`, else arms a
`REQUEST_THROTTLE` timer; `_requestData` returns without effect when
`objectsInFlight` is non-empty AND ALSO when no work is queued (the amendment);
otherwise it dequeues up to `VECTORS_MAX_COUNT` vectors taking blocks before
transactions, moves them all into `objectsInFlight`, invokes `_doRequestData`
on them and arms the `getData` timer with `REQUEST_TIMEOUT`. -/
theorem c5_request_scheduler_amended :
    (∀ (vs : List InvVector) (s : AgentState),
      REQUEST_THRESHOLD ≤ (requestVectorMid vs s).blocksToRequest.length
          + TQ.available (requestVectorMid vs s).txsToRequest →
      requestVectorStep vs s = requestData (requestVectorMid vs s)) ∧
    (∀ (vs : List InvVector) (s : AgentState),
      (requestVectorMid vs s).blocksToRequest.length
          + TQ.available (requestVectorMid vs s).txsToRequest < REQUEST_THRESHOLD →
      requestVectorStep vs s =
        ({ requestVectorMid vs s with
             timers := setTimeout .invT REQUEST_THROTTLE (requestVectorMid vs s).timers }, [])) ∧
    (∀ s : AgentState, s.objectsInFlight ≠ [] → requestData s = (s, [])) ∧
    (∀ s : AgentState, s.objectsInFlight = [] → s.blocksToRequest = [] →
      TQ.isAvailable s.txsToRequest = false → requestData s = (s, [])) ∧
    (∀ s : AgentState, s.objectsInFlight = [] →
      s.blocksToRequest ≠ [] ∨ TQ.isAvailable s.txsToRequest = true →
      (∀ v, v ∈ (requestData s).1.objectsInFlight ↔ v ∈ requestDataVectors s) ∧
      (requestData s).2 = doRequestData s.willRequestHeaders (requestDataVectors s) ∧
      (requestData s).1.timers = setTimeout .getData REQUEST_TIMEOUT s.timers ∧
      (requestData s).1.blocksToRequest = s.blocksToRequest.drop VECTORS_MAX_COUNT ∧
      (requestDataVectors s).length ≤ VECTORS_MAX_COUNT) := by
  refine ⟨?_, ?_, ?_, ?_, ?_⟩
  · intro vs s hth
    rw [requestVectorStep, if_pos hth]
  · intro vs s hth
    rw [requestVectorStep, if_neg (Nat.not_le.mpr hth)]
  · intro s hne
    rw [requestData, if_pos hne]
  · intro s h0 hb ht
    rw [requestData, if_neg (by simp [h0]), if_pos ⟨hb, ht⟩]
  · intro s h0 hwork
    have hguard1 : ¬ s.objectsInFlight ≠ [] := by simp [h0]
    have hguard2 : ¬ (s.blocksToRequest = [] ∧ TQ.isAvailable s.txsToRequest = false) := by
      rintro ⟨he, hf⟩
      rcases hwork with hb | ht
      · exact hb he
      · rw [ht] at hf; exact Bool.noConfusion hf
    rw [requestData, if_neg hguard1, if_neg hguard2]
    refine ⟨?_, rfl, rfl, rfl, ?_⟩
    · intro v
      simp only [mem_hsAddAll, h0]
      simp
    · have hb : (s.blocksToRequest.take VECTORS_MAX_COUNT).length ≤ VECTORS_MAX_COUNT := by
        rw [List.length_take]
        exact Nat.min_le_left _ _
      have hd : ((requestDataDequeue s).1).length
          ≤ VECTORS_MAX_COUNT - (s.blocksToRequest.take VECTORS_MAX_COUNT).length := by
        rw [requestDataDequeue]
        split
        · simp only [TQ.dequeueMulti, List.length_take]
          exact le_trans (Nat.min_le_left _ _) (Nat.min_le_left _ _)
        · simp
      rw [requestDataVectors, List.length_append]
      omega

/-- A state with one request in flight (for the C5 witness). -/
def s5busy : AgentState :=
  { initialState 0 with objectsInFlight := [⟨.transaction, 9⟩] }

/-- A state with one block vector queued for request (for the C5 witness). -/
def s5ready : AgentState :=
  { initialState 0 with blocksToRequest := [⟨.block, 3⟩] }

/-- C5 witness: with a request in flight `_requestData` has no effect, and
with a queued block vector and nothing in flight it moves that vector into
`objectsInFlight`. -/
theorem c5_request_scheduler_witness :
    requestData s5busy = (s5busy, []) ∧
    (⟨.block, 3⟩ : InvVector) ∈ (requestData s5ready).1.objectsInFlight := by
  constructor
  · exact c5_request_scheduler_amended.2.2.1 s5busy (by decide)
  · exact (((c5_request_scheduler_amended.2.2.2.2 s5ready (by decide)
      (Or.inl (by decide))).1) ⟨.block, 3⟩).mpr (by decide)

/-- The transaction used in the C6 counterexample: hash 1, fee 5, size 2
(fee/byte ≥ 1, so it is relayed through the paid queue). -/
def tx6 : Transaction := ⟨1, 5, 2, 0, 0⟩

/-- The starting state of the C6 counterexample: the peer subscribed to
everything, and tx6's vector already sitting in the paid relay queue (as after
an earlier `relayTransaction(tx6)` whose `knows-tx` timer has not fired). -/
def s6 : AgentState :=
  { initialState 0 with remoteSubscription := .anySub,
                        waitingInvVectors := ⟨[⟨.transaction, 1⟩], TRANSACTIONS_AT_ONCE⟩ }

/-- C6 counterexample: from `s6`, `relayTransaction(tx6)` is a duplicate
enqueue (a no-op on the queue) and `removeTransaction(tx6)` then removes the
pre-existing copy, so the pair does NOT leave the paid relay queue in its
previous state. -/
theorem c6_relay_remove_counterexample :
    (removeTransactionStep tx6 (relayTransactionStep tx6 s6)).waitingInvVectors.backlog = [] ∧
    s6.waitingInvVectors.backlog = [⟨.transaction, 1⟩] ∧
    (removeTransactionStep tx6 (relayTransactionStep tx6 s6)).waitingFreeInvVectors
      = s6.waitingFreeInvVectors := by
  decide

/-- C6 amended: provided the transaction's vector is in neither relay
out-queue beforehand, `relayTransaction(tx); removeTransaction(tx)` leaves
both relay out-queues in the same state as before the pair; in particular
`removeTransaction` reaches the FreeTransactionVector wrapper in the free
queue because its hash code equals the underlying InvVector's. -/
theorem c6_relay_remove_roundtrip :
    ∀ (s : AgentState) (tx : Transaction),
      InvVector.fromTransaction tx ∉ s.waitingInvVectors.backlog →
      (∀ f ∈ s.waitingFreeInvVectors.backlog, f.hashCode ≠ InvVector.fromTransaction tx) →
      (removeTransactionStep tx (relayTransactionStep tx s)).waitingInvVectors
          = s.waitingInvVectors ∧
      (removeTransactionStep tx (relayTransactionStep tx s)).waitingFreeInvVectors
          = s.waitingFreeInvVectors := by
  intro s tx hp hf
  have hfq : ∀ (q : FQ), (∀ f ∈ q.backlog, f.hashCode ≠ InvVector.fromTransaction tx) →
      FQ.removeByVector (InvVector.fromTransaction tx) q = q := by
    intro q hq
    have h1 : q.backlog.filter (fun f => decide (f.hashCode ≠ InvVector.fromTransaction tx))
        = q.backlog := by
      apply List.filter_eq_self.mpr
      intro f hfm
      simpa using hq f hfm
    simp only [FQ.removeByVector, h1]
  have htq : ∀ (q : TQ), InvVector.fromTransaction tx ∉ q.backlog →
      TQ.remove (InvVector.fromTransaction tx) q = q := by
    intro q hq
    simp only [TQ.remove, filter_ne_self hq]
  have hfree : ∀ sz, FQ.removeByVector (InvVector.fromTransaction tx)
      (FQ.enqueue REQUEST_TRANSACTIONS_WAITING_MAX
        (FreeTransactionVector.mk (InvVector.fromTransaction tx) sz)
        s.waitingFreeInvVectors) = s.waitingFreeInvVectors := by
    intro sz
    rw [FQ.enqueue]
    split
    · exact hfq _ hf
    · split
      · exact hfq _ hf
      · have h1 : (s.waitingFreeInvVectors.backlog
            ++ [FreeTransactionVector.mk (InvVector.fromTransaction tx) sz]).filter
            (fun f => decide (f.hashCode ≠ InvVector.fromTransaction tx))
            = s.waitingFreeInvVectors.backlog := by
          rw [List.filter_append]
          have h2 : s.waitingFreeInvVectors.backlog.filter
              (fun f => decide (f.hashCode ≠ InvVector.fromTransaction tx))
              = s.waitingFreeInvVectors.backlog := by
            apply List.filter_eq_self.mpr
            intro f hfm
            simpa using hf f hfm
          rw [h2]
          simp [FreeTransactionVector.hashCode]
        simp only [FQ.removeByVector, h1]
  have hpaid : TQ.remove (InvVector.fromTransaction tx)
      (TQ.enqueue REQUEST_TRANSACTIONS_WAITING_MAX (InvVector.fromTransaction tx)
        s.waitingInvVectors) = s.waitingInvVectors := by
    rw [TQ.enqueue]
    split
    · exact htq _ hp
    · split
      · exact htq _ hp
      · simp only [TQ.remove, filter_ne_append hp]
  simp only [relayTransactionStep]
  by_cases c1 : s.remoteSubscription.matchesTransaction tx = false
  · rw [if_pos c1]
    exact ⟨htq _ hp, hfq _ hf⟩
  · rw [if_neg c1]
    by_cases c2 : InvVector.fromTransaction tx ∈ s.knownObjects
    · rw [if_pos c2]
      exact ⟨htq _ hp, hfq _ hf⟩
    · rw [if_neg c2]
      by_cases c3 : tx.fee < TRANSACTION_RELAY_FEE_MIN * tx.serializedSize
      · rw [if_pos c3]
        exact ⟨htq _ hp, hfree _⟩
      · rw [if_neg c3]
        exact ⟨hpaid, hfq _ hf⟩

/-- C6 witness: relaying then removing a transaction starting from a state
with empty relay queues restores both queues. -/
theorem c6_relay_remove_witness :
    (removeTransactionStep tx6 (relayTransactionStep tx6 (initialState 0))).waitingInvVectors
        = (initialState 0).waitingInvVectors ∧
    (removeTransactionStep tx6 (relayTransactionStep tx6 (initialState 0))).waitingFreeInvVectors
        = (initialState 0).waitingFreeInvVectors :=
  c6_relay_remove_roundtrip (initialState 0) tx6 (by decide) (by decide)

/-- C10: when the per-vector timeout of `requestTransaction` fires with the
pending entry still present, the entry is removed and every resolver is
rejected with Timeout, but the vector is NOT removed from `objectsInFlight`;
and any call to `_requestData` while `objectsInFlight` is non-empty returns
without sending anything. -/
theorem c10_tx_timeout_keeps_inflight :
    (∀ (s : AgentState) (h : Nat) (rs : List Nat),
      timerArmed (.txRequest h) s.timers = true →
      lookupPending ⟨.transaction, h⟩ s.pendingRequests = some rs →
      (step s (.txReqTimeout h)).1.objectsInFlight = s.objectsInFlight ∧
      lookupPending ⟨.transaction, h⟩ (step s (.txReqTimeout h)).1.pendingRequests = none ∧
      (step s (.txReqTimeout h)).2 = rs.map (fun r => Output.settled r .timedOutO)) ∧
    (∀ s : AgentState, s.objectsInFlight ≠ [] → requestData s = (s, [])) := by
  constructor
  · intro s h rs harm hlook
    have hbody : step s (.txReqTimeout h)
        = reqTimeoutBody ⟨.transaction, h⟩
            { s with timers := clearTimeout (.txRequest h) s.timers } := by
      rw [step, if_pos harm]
    rw [hbody, reqTimeoutBody]
    simp only
    rw [hlook]
    exact ⟨rfl, lookupPending_erase _ _, rfl⟩
  · intro s hne
    rw [requestData, if_pos hne]

/-- The state used by the C10 witness: one resolver pending for transaction
hash 4, its timer armed, vector in flight. -/
def s10 : AgentState :=
  { initialState 0 with
      pendingRequests := [(⟨.transaction, 4⟩, [0])],
      timers := [(.txRequest 4, REQUEST_TIMEOUT)],
      objectsInFlight := [⟨.transaction, 4⟩],
      nextRid := 1 }

/-- C10 witness: firing the timeout at `s10` keeps the vector in flight,
clears the pending entry, rejects resolver 0 with Timeout, and `_requestData`
at `s10` sends nothing. -/
theorem c10_tx_timeout_witness :
    ((step s10 (.txReqTimeout 4)).1.objectsInFlight = s10.objectsInFlight ∧
      lookupPending ⟨.transaction, 4⟩ (step s10 (.txReqTimeout 4)).1.pendingRequests = none ∧
      (step s10 (.txReqTimeout 4)).2 = [Output.settled 0 .timedOutO]) ∧
    requestData s10 = (s10, []) :=
  ⟨c10_tx_timeout_keeps_inflight.1 s10 4 [0] (by decide) (by decide),
   c10_tx_timeout_keeps_inflight.2 s10 (by decide)⟩

/-! ## Timer membership lemmas -/

theorem mem_clearTimeout_of {n m : TimerName} {d : Nat} {t : List (TimerName × Nat)}
    (hne : n ≠ m) (h : (n, d) ∈ t) : (n, d) ∈ clearTimeout m t :=
  List.mem_filter.mpr ⟨h, by simpa using hne⟩

theorem mem_setTimeout_of {n m : TimerName} {d d' : Nat} {t : List (TimerName × Nat)}
    (hne : n ≠ m) (h : (n, d) ∈ t) : (n, d) ∈ setTimeout m d' t :=
  List.mem_cons.mpr (Or.inr (mem_clearTimeout_of hne h))

theorem mem_setTimeout_self (n : TimerName) (d : Nat) (t : List (TimerName × Nat)) :
    (n, d) ∈ setTimeout n d t :=
  List.mem_cons_self _ _

/-! ## C4: the getData timer -/

/-- The property claim C4 asserts of every state: the `getData` timer is
armed (with `REQUEST_TIMEOUT`) whenever `objectsInFlight` is non-empty. -/
def gdInv (s : AgentState) : Prop :=
  s.objectsInFlight ≠ [] → (TimerName.getData, REQUEST_TIMEOUT) ∈ s.timers

theorem requestData_gd {s : AgentState} (hP : gdInv s) : gdInv (requestData s).1 := by
  rw [requestData]
  split
  · exact hP
  · split
    · exact hP
    · intro _
      exact mem_setTimeout_self _ _ _

theorem noMoreData_gd (s : AgentState) : gdInv (noMoreData s).1 := by
  rw [noMoreData]
  split
  · exact requestData_gd (fun hne => absurd rfl hne)
  · exact fun hne => absurd rfl hne

theorem reqTimerName_ne_getData (v : InvVector) : TimerName.getData ≠ reqTimerName v := by
  obtain ⟨ty, hV⟩ := v
  cases ty <;> simp [reqTimerName]

theorem onObjectReceived_gd {s : AgentState} (v : InvVector) (hP : gdInv s) :
    gdInv (onObjectReceived v s).1 := by
  simp only [onObjectReceived]
  split
  · exact hP
  · split
    · intro _
      exact mem_setTimeout_self _ _ _
    · exact noMoreData_gd _

theorem notFoundOne_gd {s : AgentState} (v : InvVector) (hP : gdInv s) :
    gdInv (notFoundOne s v).1 := by
  rw [notFoundOne]
  have hmid : ∀ (s' : AgentState), gdInv s' →
      gdInv (if v ∈ s'.objectsInFlight then
        ((onObjectReceived v s').1, ([] : List Output) ++ (onObjectReceived v s').2)
      else (s', ([] : List Output))).1 := by
    intro s' hP'
    split
    · exact onObjectReceived_gd v hP'
    · exact hP'
  cases hl : lookupPending v s.pendingRequests with
  | none =>
    simp only [hl]
    split
    · exact onObjectReceived_gd v hP
    · exact hP
  | some rs =>
    simp only [hl]
    split
    · exact onObjectReceived_gd v
        (fun hne => mem_clearTimeout_of (reqTimerName_ne_getData v) (hP hne))
    · exact fun hne => mem_clearTimeout_of (reqTimerName_ne_getData v) (hP hne)

theorem onNotFound_gd (vs : List InvVector) {s : AgentState} (hP : gdInv s) :
    gdInv (onNotFound vs s).1 := by
  rw [onNotFound]
  have H : ∀ (acc : AgentState × List Output), gdInv acc.1 →
      gdInv ((vs.foldl (fun acc v =>
        let p := notFoundOne acc.1 v
        (p.1, acc.2 ++ p.2)) acc).1) := by
    induction vs with
    | nil => exact fun acc h => h
    | cons v ws ih =>
      intro acc h
      exact ih _ (notFoundOne_gd v h)
  exact H (s, []) hP

theorem onInvStep_fields (vs : List InvVector) (s : AgentState) :
    (onInvStep vs s).objectsInFlight = s.objectsInFlight ∧
    (onInvStep vs s).objectsThatFlew = s.objectsThatFlew ∧
    (onInvStep vs s).objectsProcessing = s.objectsProcessing ∧
    (onInvStep vs s).pendingRequests = s.pendingRequests ∧
    (onInvStep vs s).timers = s.timers ∧
    (onInvStep vs s).nextRid = s.nextRid := by
  induction vs generalizing s with
  | nil => exact ⟨rfl, rfl, rfl, rfl, rfl, rfl⟩
  | cons v ws ih => exact ih _

theorem relayTx_fields (tx : Transaction) (s : AgentState) :
    (relayTransactionStep tx s).objectsInFlight = s.objectsInFlight ∧
    (relayTransactionStep tx s).objectsThatFlew = s.objectsThatFlew ∧
    (relayTransactionStep tx s).objectsProcessing = s.objectsProcessing ∧
    (relayTransactionStep tx s).pendingRequests = s.pendingRequests ∧
    (relayTransactionStep tx s).nextRid = s.nextRid ∧
    ((relayTransactionStep tx s).timers = s.timers ∨
      (relayTransactionStep tx s).timers
        = setTimeout (.knowsTx tx.txhash) KNOWS_OBJECT_AFTER_INV_DELAY s.timers) := by
  simp only [relayTransactionStep]
  split
  · exact ⟨rfl, rfl, rfl, rfl, rfl, Or.inl rfl⟩
  · split
    · exact ⟨rfl, rfl, rfl, rfl, rfl, Or.inl rfl⟩
    · split
      · exact ⟨rfl, rfl, rfl, rfl, rfl, Or.inr rfl⟩
      · exact ⟨rfl, rfl, rfl, rfl, rfl, Or.inr rfl⟩

/-- Whether an event is a `requestTransaction` call. -/
def isReqTx : Event → Bool
  | .reqTx _ => true
  | _ => false

/-- Traces in which `requestTransaction` is never invoked. -/
def noReqTx (es : List Event) : Prop :=
  ∀ e ∈ es, isReqTx e = false

instance noReqTxDecidable (es : List Event) : Decidable (noReqTx es) :=
  inferInstanceAs (Decidable (∀ e ∈ es, isReqTx e = false))

theorem onTxDone_gd (tx : Transaction) (now : Nat) {s : AgentState} (hP : gdInv s) :
    gdInv (onTxDone tx now s).1 := by
  simp only [onTxDone]
  split
  · exact fun hinf => mem_clearTimeout_of (by simp) (hP hinf)
  · split
    · exact hP
    · exact hP

theorem step_gd {s : AgentState} {e : Event} (hP : gdInv s) (hne : isReqTx e = false) :
    gdInv (step s e).1 := by
  cases e with
  | reqBlock h =>
    simp only [step, requestBlockStep]
    split
    · exact hP
    · intro hinf
      exact mem_setTimeout_of (by simp) (hP hinf)
  | reqTx h => simp [isReqTx] at hne
  | reqVector vs =>
    simp only [step, requestVectorStep]
    split
    · exact requestData_gd (fun hinf => mem_clearTimeout_of (by simp) (hP hinf))
    · exact fun hinf => mem_setTimeout_of (by simp) (mem_clearTimeout_of (by simp) (hP hinf))
  | invTimer =>
    simp only [step]
    split
    · exact requestData_gd (fun hinf => mem_clearTimeout_of (by simp) (hP hinf))
    · exact hP
  | getDataTimer =>
    simp only [step]
    split
    · exact noMoreData_gd _
    · exact hP
  | blockReqTimeout h =>
    simp only [step]
    split
    · simp only [reqTimeoutBody]
      split
      · exact fun hinf => mem_clearTimeout_of (by simp) (hP hinf)
      · exact fun hinf => mem_clearTimeout_of (by simp) (hP hinf)
    · exact hP
  | txReqTimeout h =>
    simp only [step]
    split
    · simp only [reqTimeoutBody]
      split
      · exact fun hinf => mem_clearTimeout_of (by simp) (hP hinf)
      · exact fun hinf => mem_clearTimeout_of (by simp) (hP hinf)
    · exact hP
  | knowsBlockTimer h =>
    simp only [step]
    split
    · exact fun hinf => mem_clearTimeout_of (by simp) (hP hinf)
    · exact hP
  | knowsTxTimer h =>
    simp only [step]
    split
    · exact fun hinf => mem_clearTimeout_of (by simp) (hP hinf)
    · exact hP
  | blockMsg h =>
    simp only [step, onBlockStart]
    split
    · exact fun hinf => mem_clearTimeout_of (by simp) (hP hinf)
    · split
      · exact onObjectReceived_gd _ hP
      · exact hP
  | blockDone h => exact hP
  | headerMsg h =>
    simp only [step, onHeaderStart]
    split
    · exact onObjectReceived_gd _ hP
    · exact hP
  | headerDone h => exact hP
  | txMsg tx now =>
    simp only [step, onTxStart]
    split
    · split
      · exact onObjectReceived_gd _ hP
      · exact onTxDone_gd tx now (onObjectReceived_gd _ hP)
    · exact hP
  | txDone tx now =>
    simp only [step]
    split
    · exact onTxDone_gd tx now hP
    · exact hP
  | notFoundMsg vs =>
    simp only [step]
    exact onNotFound_gd vs hP
  | invIngress vs =>
    simp only [step]
    intro hinf
    have hf := onInvStep_fields vs s
    rw [hf.2.2.2.2.1]
    exact hP (by rwa [hf.1] at hinf)
  | subscribeEv sub now => exact hP
  | relayTx tx =>
    simp only [step]
    intro hinf
    have hf := relayTx_fields tx s
    have hinf' : s.objectsInFlight ≠ [] := by rwa [hf.1] at hinf
    rcases hf.2.2.2.2.2 with ht | ht
    · rw [ht]; exact hP hinf'
    · rw [ht]; exact mem_setTimeout_of (by simp) (hP hinf')
  | removeTx tx => exact hP
  | relayBlockEv h =>
    simp only [step, relayBlockStep]
    split
    · exact hP
    · split
      · exact hP
      · split
        · exact hP
        · exact fun hinf => mem_setTimeout_of (by simp) (hP hinf)
  | sendWaiting => exact hP
  | sendFree => exact hP

theorem run_gd {s : AgentState} (es : List Event) (hP : gdInv s) (hno : noReqTx es) :
    gdInv (run s es).1 := by
  induction es generalizing s with
  | nil => exact hP
  | cons e es ih =>
    exact ih (step_gd hP (hno e (List.mem_cons_self _ _)))
      (fun e' he' => hno e' (List.mem_cons_of_mem _ he'))

/-- C4 counterexample: `requestTransaction` for a fresh hash puts its vector
into `objectsInFlight` without arming the `getData` timer, against the
claim's "including after a vector enters it via requestTransaction". -/
theorem c4_getdata_timer_counterexample :
    (run (initialState 0) [.reqTx 7]).1.objectsInFlight ≠ [] ∧
    timerArmed .getData (run (initialState 0) [.reqTx 7]).1.timers = false := by
  decide

/-- C4 amended: in every run that never invokes `requestTransaction`, whenever
`objectsInFlight` is non-empty the `getData` timer is armed with
`REQUEST_TIMEOUT` (so `_noMoreData` fires within at most `REQUEST_TIMEOUT`);
a vector entering `objectsInFlight` via `requestTransaction` arms only the
per-vector `tx-request` timer, leaving the `getData` timer unarmed. -/
theorem c4_getdata_timer_amended :
    ∀ (ph : Nat) (es : List Event), noReqTx es →
      (run (initialState ph) es).1.objectsInFlight ≠ [] →
      (TimerName.getData, REQUEST_TIMEOUT) ∈ (run (initialState ph) es).1.timers :=
  fun _ es hno => run_gd es (fun hne => absurd rfl hne) hno

/-- C4 witness: after an inv-announced block vector is batch-requested via the
throttle timer, the vector is in flight and the `getData` timer is armed. -/
theorem c4_getdata_timer_witness :
    (TimerName.getData, REQUEST_TIMEOUT)
      ∈ (run (initialState 0) [.reqVector [⟨.block, 3⟩], .invTimer]).1.timers :=
  c4_getdata_timer_amended 0 [.reqVector [⟨.block, 3⟩], .invTimer] (by decide) (by decide)

/-! ## C9: objectsThatFlew only grows -/

theorem requestData_flew (s : AgentState) :
    (requestData s).1.objectsThatFlew = s.objectsThatFlew := by
  rw [requestData]
  split
  · rfl
  · split
    · rfl
    · rfl

theorem noMoreData_flew {v : InvVector} {s : AgentState} (h : v ∈ s.objectsThatFlew) :
    v ∈ (noMoreData s).1.objectsThatFlew := by
  rw [noMoreData]
  split
  · rw [requestData_flew]
    exact mem_hsAddAll.mpr (Or.inr h)
  · exact mem_hsAddAll.mpr (Or.inr h)

theorem onObjectReceived_flew {v w : InvVector} {s : AgentState}
    (h : v ∈ s.objectsThatFlew) : v ∈ (onObjectReceived w s).1.objectsThatFlew := by
  simp only [onObjectReceived]
  split
  · exact h
  · split
    · exact h
    · exact noMoreData_flew h

theorem notFoundOne_flew {v : InvVector} {s : AgentState} (w : InvVector)
    (h : v ∈ s.objectsThatFlew) : v ∈ (notFoundOne s w).1.objectsThatFlew := by
  simp only [notFoundOne]
  split
  · split
    · exact onObjectReceived_flew h
    · exact onObjectReceived_flew h
  · split
    · exact h
    · exact h

theorem onNotFound_flew (vs : List InvVector) {v : InvVector} {s : AgentState}
    (h : v ∈ s.objectsThatFlew) : v ∈ (onNotFound vs s).1.objectsThatFlew := by
  rw [onNotFound]
  have H : ∀ (acc : AgentState × List Output), v ∈ acc.1.objectsThatFlew →
      v ∈ ((vs.foldl (fun acc w =>
        let p := notFoundOne acc.1 w
        (p.1, acc.2 ++ p.2)) acc).1).objectsThatFlew := by
    induction vs with
    | nil => exact fun acc h' => h'
    | cons w ws ih => exact fun acc h' => ih _ (notFoundOne_flew w h')
  exact H (s, []) h

theorem onTxDone_flew {v : InvVector} {s : AgentState} (tx : Transaction) (now : Nat)
    (h : v ∈ s.objectsThatFlew) : v ∈ (onTxDone tx now s).1.objectsThatFlew := by
  simp only [onTxDone]
  split
  · exact h
  · split
    · exact h
    · exact h

theorem step_flew {s : AgentState} (e : Event) {v : InvVector}
    (h : v ∈ s.objectsThatFlew) : v ∈ (step s e).1.objectsThatFlew := by
  cases e with
  | reqBlock h' =>
    simp only [step, requestBlockStep]
    split
    · exact h
    · exact h
  | reqTx h' =>
    simp only [step, requestTransactionStep]
    split
    · exact h
    · split
      · exact h
      · exact h
  | reqVector vs =>
    simp only [step, requestVectorStep]
    split
    · rw [requestData_flew]; exact h
    · exact h
  | invTimer =>
    simp only [step]
    split
    · rw [requestData_flew]; exact h
    · exact h
  | getDataTimer =>
    simp only [step]
    split
    · exact noMoreData_flew h
    · exact h
  | blockReqTimeout h' =>
    simp only [step]
    split
    · simp only [reqTimeoutBody]
      split
      · exact h
      · exact h
    · exact h
  | txReqTimeout h' =>
    simp only [step]
    split
    · simp only [reqTimeoutBody]
      split
      · exact h
      · exact h
    · exact h
  | knowsBlockTimer h' =>
    simp only [step]
    split
    · exact h
    · exact h
  | knowsTxTimer h' =>
    simp only [step]
    split
    · exact h
    · exact h
  | blockMsg h' =>
    simp only [step, onBlockStart]
    split
    · exact h
    · split
      · exact onObjectReceived_flew h
      · exact h
  | blockDone h' => exact h
  | headerMsg h' =>
    simp only [step, onHeaderStart]
    split
    · exact onObjectReceived_flew h
    · exact h
  | headerDone h' => exact h
  | txMsg tx now =>
    simp only [step, onTxStart]
    split
    · split
      · exact onObjectReceived_flew h
      · exact onTxDone_flew tx now (onObjectReceived_flew h)
    · exact h
  | txDone tx now =>
    simp only [step]
    split
    · exact onTxDone_flew tx now h
    · exact h
  | notFoundMsg vs =>
    simp only [step]
    exact onNotFound_flew vs h
  | invIngress vs =>
    simp only [step]
    rw [(onInvStep_fields vs s).2.1]
    exact h
  | subscribeEv sub now => exact h
  | relayTx tx =>
    simp only [step]
    rw [(relayTx_fields tx s).2.1]
    exact h
  | removeTx tx => exact h
  | relayBlockEv h' =>
    simp only [step, relayBlockStep]
    split
    · exact h
    · split
      · exact h
      · split
        · exact h
        · exact h
  | sendWaiting => exact h
  | sendFree => exact h

theorem run_flew {s : AgentState} (es : List Event) {v : InvVector}
    (h : v ∈ s.objectsThatFlew) : v ∈ (run s es).1.objectsThatFlew := by
  induction es generalizing s with
  | nil => exact h
  | cons e es ih => exact ih (step_flew e h)

/-- C9: `objectsThatFlew` only ever grows — no operation of the agent removes
a vector from it, over single steps and over whole runs — and any vector in it
passes the unsolicited checks of `_onTx`/`_onHeader` (`txSolicited`) and
`_onBlock` (`blockSolicited`), so such messages are fully processed for the
rest of the connection's lifetime. -/
theorem c9_objects_that_flew_monotone :
    (∀ (s : AgentState) (e : Event) (v : InvVector),
      v ∈ s.objectsThatFlew → v ∈ (step s e).1.objectsThatFlew) ∧
    (∀ (s : AgentState) (es : List Event) (v : InvVector),
      v ∈ s.objectsThatFlew → v ∈ (run s es).1.objectsThatFlew) ∧
    (∀ (s : AgentState) (v : InvVector), v ∈ s.objectsThatFlew →
      txSolicited s v = true ∧ blockSolicited s v = true) := by
  refine ⟨fun s e v h => step_flew e h, fun s es v h => run_flew es h, fun s v h => ⟨?_, ?_⟩⟩
  · simp [txSolicited, h]
  · simp [blockSolicited, txSolicited, h]

/-- The state used by the C9 witness: one vector has flown. -/
def s9 : AgentState :=
  { initialState 0 with objectsThatFlew := [⟨.transaction, 2⟩] }

/-- C9 witness: the flown vector survives a later transaction delivery and
still passes the solicited checks. -/
theorem c9_objects_that_flew_witness :
    (⟨.transaction, 2⟩ : InvVector)
      ∈ (run s9 [.txMsg ⟨2, 0, 1, 0, 0⟩ 99]).1.objectsThatFlew ∧
    txSolicited s9 ⟨.transaction, 2⟩ = true :=
  ⟨c9_objects_that_flew_monotone.2.1 s9 [.txMsg ⟨2, 0, 1, 0, 0⟩ 99]
    ⟨.transaction, 2⟩ (by decide),
   (c9_objects_that_flew_monotone.2.2 s9 ⟨.transaction, 2⟩ (by decide)).1⟩

/-! ## C3: disjointness of objectsInFlight and objectsProcessing -/

/-- Claim C3's invariant: a vector in `objectsInFlight` is never in
`objectsProcessing`. -/
def DisjointFP (s : AgentState) : Prop :=
  ∀ v ∈ s.objectsInFlight, v ∉ s.objectsProcessing

/-- All vectors queued for a future `get-data` batch. -/
def queuedVectors (s : AgentState) : List InvVector :=
  s.blocksToRequest ++ s.txsToRequest.backlog

/-- No queued vector is being processed. -/
def QueuedSafe (s : AgentState) : Prop :=
  ∀ v ∈ queuedVectors s, v ∉ s.objectsProcessing

instance DisjointFPDecidable (s : AgentState) : Decidable (DisjointFP s) :=
  inferInstanceAs (Decidable (∀ v ∈ s.objectsInFlight, v ∉ s.objectsProcessing))

instance QueuedSafeDecidable (s : AgentState) : Decidable (QueuedSafe s) :=
  inferInstanceAs (Decidable (∀ v ∈ queuedVectors s, v ∉ s.objectsProcessing))

theorem hsRemove_subset {w v : InvVector} {l : List InvVector}
    (h : w ∈ hsRemove v l) : w ∈ l :=
  (List.mem_filter.mp h).1

theorem mem_uqEnqueueAll_sub {v : InvVector} {vs l : List InvVector}
    (h : v ∈ uqEnqueueAll vs l) : v ∈ vs ∨ v ∈ l := by
  induction vs generalizing l with
  | nil => exact Or.inr h
  | cons w ws ih =>
    have h' : v ∈ uqEnqueueAll ws (uqEnqueue w l) := h
    rcases ih h' with h1 | h2
    · exact Or.inl (List.mem_cons_of_mem _ h1)
    · rw [uqEnqueue] at h2
      split at h2
      · exact Or.inr h2
      · rcases List.mem_append.mp h2 with h3 | h3
        · exact Or.inr h3
        · exact Or.inl (by rw [List.mem_singleton.mp h3]; exact List.mem_cons_self _ _)

theorem mem_tqEnqueueAll_sub {v : InvVector} {vs : List InvVector} {m : Nat} {q : TQ}
    (h : v ∈ (TQ.enqueueAll m vs q).backlog) : v ∈ vs ∨ v ∈ q.backlog := by
  induction vs generalizing q with
  | nil => exact Or.inr h
  | cons w ws ih =>
    have h' : v ∈ (TQ.enqueueAll m ws (TQ.enqueue m w q)).backlog := h
    rcases ih h' with h1 | h2
    · exact Or.inl (List.mem_cons_of_mem _ h1)
    · rw [TQ.enqueue] at h2
      split at h2
      · exact Or.inr h2
      · split at h2
        · exact Or.inr h2
        · rcases List.mem_append.mp h2 with h3 | h3
          · exact Or.inr h3
          · exact Or.inl (by rw [List.mem_singleton.mp h3]; exact List.mem_cons_self _ _)

theorem requestDataVectors_subset (s : AgentState) :
    ∀ v ∈ requestDataVectors s, v ∈ queuedVectors s := by
  intro v hv
  rw [requestDataVectors] at hv
  rcases List.mem_append.mp hv with h1 | h2
  · exact List.mem_append.mpr (Or.inl (List.mem_of_mem_take h1))
  · rw [requestDataDequeue] at h2
    split at h2
    · exact List.mem_append.mpr (Or.inr (List.mem_of_mem_take h2))
    · cases h2

theorem requestData_keeps (s : AgentState) :
    (requestData s).1.objectsProcessing = s.objectsProcessing ∧
    (requestData s).1.pendingRequests = s.pendingRequests ∧
    (requestData s).1.nextRid = s.nextRid ∧
    settledOf (requestData s).2 = [] := by
  rw [requestData]
  split
  · exact ⟨rfl, rfl, rfl, rfl⟩
  · split
    · exact ⟨rfl, rfl, rfl, rfl⟩
    · refine ⟨rfl, rfl, rfl, ?_⟩
      rw [doRequestData]
      split
      · rfl
      · rfl

theorem noMoreData_keeps (s : AgentState) :
    (noMoreData s).1.objectsProcessing = s.objectsProcessing ∧
    (noMoreData s).1.pendingRequests = s.pendingRequests ∧
    (noMoreData s).1.nextRid = s.nextRid ∧
    settledOf (noMoreData s).2 = [] := by
  rw [noMoreData]
  split
  · exact requestData_keeps _
  · exact ⟨rfl, rfl, rfl, rfl⟩

theorem onObjectReceived_keeps (v : InvVector) (s : AgentState) :
    (onObjectReceived v s).1.objectsProcessing = s.objectsProcessing ∧
    (onObjectReceived v s).1.pendingRequests = s.pendingRequests ∧
    (onObjectReceived v s).1.nextRid = s.nextRid ∧
    settledOf (onObjectReceived v s).2 = [] := by
  simp only [onObjectReceived]
  split
  · exact ⟨rfl, rfl, rfl, rfl⟩
  · split
    · exact ⟨rfl, rfl, rfl, rfl⟩
    · exact noMoreData_keeps _

theorem requestData_inflight_subset (s : AgentState) :
    ∀ w ∈ (requestData s).1.objectsInFlight, w ∈ s.objectsInFlight ∨ w ∈ queuedVectors s := by
  rw [requestData]
  split
  · exact fun w hw => Or.inl hw
  · split
    · exact fun w hw => Or.inl hw
    · intro w hw
      rcases mem_hsAddAll.mp hw with h1 | h2
      · exact Or.inr (requestDataVectors_subset _ _ h1)
      · exact Or.inl h2

theorem noMoreData_inflight_subset (s : AgentState) :
    ∀ w ∈ (noMoreData s).1.objectsInFlight, w ∈ queuedVectors s := by
  rw [noMoreData]
  split
  · intro w hw
    rcases requestData_inflight_subset _ w hw with h1 | h2
    · cases h1
    · exact h2
  · intro w hw
    cases hw

theorem onObjectReceived_inflight_subset (v : InvVector) (s : AgentState) :
    ∀ w ∈ (onObjectReceived v s).1.objectsInFlight,
      w ∈ s.objectsInFlight ∨ w ∈ queuedVectors s := by
  simp only [onObjectReceived]
  split
  · exact fun w hw => Or.inl hw
  · split
    · exact fun w hw => Or.inl (hsRemove_subset hw)
    · intro w hw
      have h2 := noMoreData_inflight_subset _ w hw
      exact Or.inr h2

theorem requestData_queued_subset (s : AgentState) :
    ∀ w ∈ queuedVectors (requestData s).1, w ∈ queuedVectors s := by
  rw [requestData]
  split
  · exact fun w hw => hw
  · split
    · exact fun w hw => hw
    · intro w hw
      rcases List.mem_append.mp hw with h1 | h2
      · exact List.mem_append.mpr (Or.inl (List.mem_of_mem_drop h1))
      · rw [requestDataDequeue] at h2
        split at h2
        · exact List.mem_append.mpr (Or.inr (List.mem_of_mem_drop h2))
        · exact List.mem_append.mpr (Or.inr h2)

theorem noMoreData_queued_subset (s : AgentState) :
    ∀ w ∈ queuedVectors (noMoreData s).1, w ∈ queuedVectors s := by
  rw [noMoreData]
  split
  · exact requestData_queued_subset _
  · exact fun w hw => hw

theorem onObjectReceived_queued_subset (v : InvVector) (s : AgentState) :
    ∀ w ∈ queuedVectors (onObjectReceived v s).1, w ∈ queuedVectors s := by
  simp only [onObjectReceived]
  split
  · exact fun w hw => hw
  · split
    · exact fun w hw => hw
    · exact noMoreData_queued_subset _

theorem requestData_disj {s : AgentState} (hD : DisjointFP s) (hQ : QueuedSafe s) :
    DisjointFP (requestData s).1 := by
  intro w hw hp
  rw [(requestData_keeps s).1] at hp
  rcases requestData_inflight_subset s w hw with h1 | h2
  · exact hD w h1 hp
  · exact hQ w h2 hp

theorem noMoreData_disj {s : AgentState} (hQ : QueuedSafe s) :
    DisjointFP (noMoreData s).1 := by
  intro w hw hp
  rw [(noMoreData_keeps s).1] at hp
  exact hQ w (noMoreData_inflight_subset s w hw) hp

theorem onObjectReceived_disj {s : AgentState} (v : InvVector)
    (hD : DisjointFP s) (hQ : QueuedSafe s) : DisjointFP (onObjectReceived v s).1 := by
  intro w hw hp
  rw [(onObjectReceived_keeps v s).1] at hp
  rcases onObjectReceived_inflight_subset v s w hw with h1 | h2
  · exact hD w h1 hp
  · exact hQ w h2 hp

theorem onObjectReceived_self_not_inflight {v : InvVector} {s : AgentState}
    (hvq : v ∉ queuedVectors s) : v ∉ (onObjectReceived v s).1.objectsInFlight := by
  simp only [onObjectReceived]
  split
  · rename_i heq
    rw [heq]
    exact List.not_mem_nil v
  · split
    · intro hv
      have := (List.mem_filter.mp hv).2
      simp at this
    · intro hv
      have h2 := noMoreData_inflight_subset _ v hv
      exact hvq h2

/-- The state a solicited block/header/tx start step produces: batch
accounting followed by marking the vector as processing. -/
theorem startHandler_disj {v : InvVector} {s : AgentState}
    (hD : DisjointFP s) (hQ : QueuedSafe s) (hvq : v ∉ queuedVectors s) :
    DisjointFP { (onObjectReceived v s).1 with
      objectsProcessing := hsAdd v (onObjectReceived v s).1.objectsProcessing } := by
  intro w hw hp
  rcases mem_hsAdd.mp hp with rfl | hmem
  · exact onObjectReceived_self_not_inflight hvq hw
  · exact onObjectReceived_disj v hD hQ w hw hmem

theorem onObjectReceived_safe {s : AgentState} (v : InvVector) (hQ : QueuedSafe s) :
    QueuedSafe (onObjectReceived v s).1 := by
  intro w hw hp
  rw [(onObjectReceived_keeps v s).1] at hp
  exact hQ w (onObjectReceived_queued_subset v s w hw) hp

theorem notFoundOne_disj_safe {s : AgentState} (w : InvVector)
    (hD : DisjointFP s) (hQ : QueuedSafe s) :
    DisjointFP (notFoundOne s w).1 ∧ QueuedSafe (notFoundOne s w).1 := by
  simp only [notFoundOne]
  split
  · split
    · exact ⟨onObjectReceived_disj w hD hQ, onObjectReceived_safe w hQ⟩
    · exact ⟨onObjectReceived_disj w hD hQ, onObjectReceived_safe w hQ⟩
  · split
    · exact ⟨hD, hQ⟩
    · exact ⟨hD, hQ⟩

theorem onNotFound_disj {s : AgentState} (vs : List InvVector)
    (hD : DisjointFP s) (hQ : QueuedSafe s) : DisjointFP (onNotFound vs s).1 := by
  rw [onNotFound]
  have H : ∀ (acc : AgentState × List Output), DisjointFP acc.1 → QueuedSafe acc.1 →
      DisjointFP ((vs.foldl (fun acc w =>
        let p := notFoundOne acc.1 w
        (p.1, acc.2 ++ p.2)) acc).1) := by
    induction vs with
    | nil => exact fun acc h _ => h
    | cons w ws ih =>
      intro acc h hq
      have hp := notFoundOne_disj_safe w h hq
      exact ih _ hp.1 hp.2
  exact H (s, []) hD hQ

/-- The side condition under which an event cannot insert a vector of
`objectsProcessing` into `objectsInFlight`: `requestTransaction` is not
invoked for a processing hash, vectors handed to `requestVector` and vectors
sitting in the request queues are not processing when a batch can be issued,
and a solicited delivery's vector is not simultaneously queued for request. -/
def SafeEvent : Event → AgentState → Prop
  | .reqTx h, s => (⟨.transaction, h⟩ : InvVector) ∉ s.objectsProcessing
  | .reqVector vs, s => QueuedSafe s ∧ ∀ v ∈ vs, v ∉ s.objectsProcessing
  | .invTimer, s => QueuedSafe s
  | .getDataTimer, s => QueuedSafe s
  | .notFoundMsg _, s => QueuedSafe s
  | .blockMsg h, s => QueuedSafe s ∧ (⟨.block, h⟩ : InvVector) ∉ queuedVectors s
  | .headerMsg h, s => QueuedSafe s ∧ (⟨.block, h⟩ : InvVector) ∉ queuedVectors s
  | .txMsg tx _, s => QueuedSafe s ∧ InvVector.fromTransaction tx ∉ queuedVectors s
  | _, _ => True

theorem onTxDone_disj {s : AgentState} (tx : Transaction) (now : Nat)
    (hD : DisjointFP s) : DisjointFP (onTxDone tx now s).1 := by
  simp only [onTxDone]
  split
  · exact fun w hw hp => hD w hw (hsRemove_subset hp)
  · split
    · exact fun w hw hp => hD w hw (hsRemove_subset hp)
    · exact fun w hw hp => hD w hw (hsRemove_subset hp)

theorem step_disj {s : AgentState} {e : Event}
    (hD : DisjointFP s) (hS : SafeEvent e s) : DisjointFP (step s e).1 := by
  cases e with
  | reqBlock h =>
    simp only [step, requestBlockStep]
    split
    · exact hD
    · exact hD
  | reqTx h =>
    simp only [step, requestTransactionStep]
    split
    · exact hD
    · split
      · exact hD
      · intro w hw hp
        rcases List.mem_append.mp hw with h1 | h2
        · exact hD w h1 hp
        · rw [List.mem_singleton.mp h2] at hp
          exact hS hp
  | reqVector vs =>
    have hQmid : QueuedSafe (requestVectorMid vs s) := by
      intro v hv hp
      rcases List.mem_append.mp hv with h1 | h2
      · rcases mem_uqEnqueueAll_sub h1 with h3 | h4
        · exact hS.2 v (List.mem_of_mem_filter h3) hp
        · exact hS.1 v (List.mem_append.mpr (Or.inl h4)) hp
      · rcases mem_tqEnqueueAll_sub h2 with h3 | h4
        · exact hS.2 v (List.mem_of_mem_filter h3) hp
        · exact hS.1 v (List.mem_append.mpr (Or.inr h4)) hp
    simp only [step, requestVectorStep]
    split
    · exact requestData_disj hD hQmid
    · exact hD
  | invTimer =>
    simp only [step]
    split
    · exact requestData_disj hD hS
    · exact hD
  | getDataTimer =>
    simp only [step]
    split
    · exact noMoreData_disj hS
    · exact hD
  | blockReqTimeout h =>
    simp only [step]
    split
    · simp only [reqTimeoutBody]
      split
      · exact hD
      · exact hD
    · exact hD
  | txReqTimeout h =>
    simp only [step]
    split
    · simp only [reqTimeoutBody]
      split
      · exact hD
      · exact hD
    · exact hD
  | knowsBlockTimer h =>
    simp only [step]
    split
    · exact hD
    · exact hD
  | knowsTxTimer h =>
    simp only [step]
    split
    · exact hD
    · exact hD
  | blockMsg h =>
    simp only [step, onBlockStart]
    split
    · exact hD
    · split
      · exact startHandler_disj hD hS.1 hS.2
      · exact hD
  | blockDone h =>
    exact fun w hw hp => hD w hw (hsRemove_subset hp)
  | headerMsg h =>
    simp only [step, onHeaderStart]
    split
    · exact startHandler_disj hD hS.1 hS.2
    · exact hD
  | headerDone h =>
    exact fun w hw hp => hD w hw (hsRemove_subset hp)
  | txMsg tx now =>
    simp only [step, onTxStart]
    split
    · split
      · exact startHandler_disj hD hS.1 hS.2
      · exact onTxDone_disj tx now (startHandler_disj hD hS.1 hS.2)
    · exact hD
  | txDone tx now =>
    simp only [step]
    split
    · exact onTxDone_disj tx now hD
    · exact hD
  | notFoundMsg vs =>
    simp only [step]
    exact onNotFound_disj vs hD hS
  | invIngress vs =>
    simp only [step]
    intro w hw hp
    rw [(onInvStep_fields vs s).1] at hw
    rw [(onInvStep_fields vs s).2.2.1] at hp
    exact hD w hw hp
  | subscribeEv sub now => exact hD
  | relayTx tx =>
    simp only [step]
    intro w hw hp
    rw [(relayTx_fields tx s).1] at hw
    rw [(relayTx_fields tx s).2.2.1] at hp
    exact hD w hw hp
  | removeTx tx => exact hD
  | relayBlockEv h =>
    simp only [step, relayBlockStep]
    split
    · exact hD
    · split
      · exact hD
      · split
        · exact hD
        · exact hD
  | sendWaiting => exact hD
  | sendFree => exact hD

/-- The vector and events of the C3 counterexample. -/
def v3 : InvVector := ⟨.transaction, 1⟩

/-- The C3 counterexample trace: the agent subscribes to everything (so
`_onTx` really suspends at `await _processTransaction`, source line 797); a
transaction vector is announced and batch-requested; its `tx` message arrives
(the start half of `_onTx`, which moves the vector from `objectsInFlight` to
`objectsProcessing` and then awaits `_processTransaction` because the local
subscription matches); then `requestTransaction` is invoked for the same hash
during the await, while the vector is still processing. -/
def es3 : List Event :=
  [.subscribeEv .anySub 0, .reqVector [v3], .invTimer, .txMsg ⟨1, 0, 1, 0, 0⟩ 0, .reqTx 1]

/-- C3 counterexample: after `es3` the same vector is in `objectsInFlight`
AND in `objectsProcessing`, refuting the claimed invariant for
`requestTransaction` invoked while the hash — whose transaction matched the
local subscription, so its `_onTx` genuinely suspended — awaits
`_processTransaction`. -/
theorem c3_disjoint_counterexample :
    v3 ∈ (run (initialState 0) es3).1.objectsInFlight ∧
    v3 ∈ (run (initialState 0) es3).1.objectsProcessing := by
  decide

/-- C3 amended: the disjointness `v ∈ objectsInFlight → v ∉ objectsProcessing`
is NOT preserved by `requestTransaction` invoked while a transaction with the
same hash — one that matched the local subscription, so `_onTx` suspended at
`await _processTransaction` — is still processing (see the counterexample);
it IS preserved by every operation under the side condition `SafeEvent` — that the
operation does not insert a vector currently in `objectsProcessing` into
`objectsInFlight` (for `requestTransaction`: the requested hash is not
processing; for batch-issuing events: no queued vector is processing; for
solicited deliveries: the delivered vector is not also queued). -/
theorem c3_disjoint_preservation :
    ∀ (s : AgentState) (e : Event),
      DisjointFP s → SafeEvent e s → DisjointFP (step s e).1 :=
  fun _ _ hD hS => step_disj hD hS

/-- C3 witness: one preservation step at a concrete state — a solicited `tx`
message arrives for a vector in flight (the local subscription not matching,
its whole `_onTx` runs atomically) and the disjointness survives. -/
theorem c3_disjoint_witness :
    DisjointFP (step { initialState 0 with objectsInFlight := [v3] }
      (.txMsg ⟨1, 0, 1, 0, 0⟩ 0)).1 :=
  c3_disjoint_preservation { initialState 0 with objectsInFlight := [v3] }
    (.txMsg ⟨1, 0, 1, 0, 0⟩ 0) (by decide) ⟨by decide, by decide⟩

/-! ## C1: the pending-request table -/

/-- All resolver ids registered in a pending-request table. -/
def ridsL (l : List (InvVector × List Nat)) : List Nat :=
  (l.map Prod.snd).join

theorem ridsL_cons (p : InvVector × List Nat) (l : List (InvVector × List Nat)) :
    ridsL (p :: l) = p.2 ++ ridsL l := rfl

theorem ridsL_append (l₁ l₂ : List (InvVector × List Nat)) :
    ridsL (l₁ ++ l₂) = ridsL l₁ ++ ridsL l₂ := by
  simp [ridsL]

theorem lookupPending_cons (p : InvVector × List Nat) (l : List (InvVector × List Nat))
    (w : InvVector) :
    lookupPending w (p :: l) = if p.1 = w then some p.2 else lookupPending w l := by
  by_cases hw : p.1 = w
  · simp [lookupPending, List.find?_cons, hw]
  · simp [lookupPending, List.find?_cons, hw]

theorem erasePending_cons (p : InvVector × List Nat) (l : List (InvVector × List Nat))
    (v : InvVector) :
    erasePending v (p :: l)
      = if p.1 = v then erasePending v l else p :: erasePending v l := by
  by_cases hc : p.1 = v <;> simp [erasePending, List.filter_cons, hc]

theorem pushPending_cons (v : InvVector) (r : Nat) (p : InvVector × List Nat)
    (l : List (InvVector × List Nat)) :
    pushPending v r (p :: l)
      = (if p.1 = v then (p.1, p.2 ++ [r]) else p) :: pushPending v r l := rfl

theorem join_sublist {l₁ l₂ : List (List Nat)} (h : List.Sublist l₁ l₂) :
    List.Sublist l₁.join l₂.join := by
  induction h with
  | slnil => exact List.Sublist.refl _
  | cons a _ ih => exact ih.trans (List.sublist_append_right a _)
  | cons₂ a _ ih => exact List.Sublist.append (List.Sublist.refl a) ih

theorem erase_rids_sublist (v : InvVector) (l : List (InvVector × List Nat)) :
    List.Sublist (ridsL (erasePending v l)) (ridsL l) :=
  join_sublist (List.Sublist.map Prod.snd (List.filter_sublist l))

theorem erase_keys_sublist (v : InvVector) (l : List (InvVector × List Nat)) :
    List.Sublist ((erasePending v l).map Prod.fst) (l.map Prod.fst) :=
  List.Sublist.map Prod.fst (List.filter_sublist l)

theorem lookup_mem_rids {v : InvVector} {l : List (InvVector × List Nat)} {rs : List Nat}
    (hl : lookupPending v l = some rs) : ∀ r ∈ rs, r ∈ ridsL l := by
  induction l with
  | nil => cases hl
  | cons p l ih =>
    rw [lookupPending_cons] at hl
    intro r hr
    rw [ridsL_cons]
    split at hl
    · cases hl
      exact List.mem_append.mpr (Or.inl hr)
    · exact List.mem_append.mpr (Or.inr (ih hl r hr))

theorem lookup_rs_nodup {v : InvVector} {l : List (InvVector × List Nat)} {rs : List Nat}
    (hnd : (ridsL l).Nodup) (hl : lookupPending v l = some rs) : rs.Nodup := by
  induction l with
  | nil => cases hl
  | cons p l ih =>
    rw [ridsL_cons, List.nodup_append] at hnd
    rw [lookupPending_cons] at hl
    split at hl
    · cases hl
      exact hnd.1
    · exact ih hnd.2.1 hl

theorem erase_removes_looked {v : InvVector} {l : List (InvVector × List Nat)} {rs : List Nat}
    (hnd : (ridsL l).Nodup) (hl : lookupPending v l = some rs) :
    ∀ r ∈ rs, r ∉ ridsL (erasePending v l) := by
  induction l with
  | nil => cases hl
  | cons p l ih =>
    rw [ridsL_cons, List.nodup_append] at hnd
    rw [lookupPending_cons] at hl
    rw [erasePending_cons]
    split at hl
    · rename_i hc
      rw [if_pos hc]
      cases hl
      intro r hr hr2
      exact hnd.2.2 hr ((erase_rids_sublist v l).subset hr2)
    · rename_i hc
      rw [if_neg hc]
      intro r hr hr2
      rw [ridsL_cons] at hr2
      rcases List.mem_append.mp hr2 with h1 | h2
      · exact hnd.2.2 h1 (lookup_mem_rids hl r hr)
      · exact ih hnd.2.1 hl r hr h2

theorem lookup_erase_other {v w : InvVector} {l : List (InvVector × List Nat)}
    (hne : w ≠ v) : lookupPending w (erasePending v l) = lookupPending w l := by
  induction l with
  | nil => rfl
  | cons p l ih =>
    rw [erasePending_cons]
    by_cases hc : p.1 = v
    · have hpw : ¬ p.1 = w := fun hw => hne (by rw [← hw]; exact hc)
      rw [if_pos hc, ih, lookupPending_cons, if_neg hpw]
    · rw [if_neg hc, lookupPending_cons, lookupPending_cons]
      by_cases hw : p.1 = w
      · rw [if_pos hw, if_pos hw]
      · rw [if_neg hw, if_neg hw, ih]

theorem push_rids_mem {v : InvVector} {r r' : Nat} {l : List (InvVector × List Nat)}
    (h : r' ∈ ridsL (pushPending v r l)) : r' ∈ ridsL l ∨ r' = r := by
  induction l with
  | nil => cases h
  | cons p l ih =>
    rw [pushPending_cons, ridsL_cons] at h
    rw [ridsL_cons]
    rcases List.mem_append.mp h with h1 | h2
    · split at h1
      · rcases List.mem_append.mp h1 with h3 | h4
        · exact Or.inl (List.mem_append.mpr (Or.inl h3))
        · exact Or.inr (List.mem_singleton.mp h4)
      · exact Or.inl (List.mem_append.mpr (Or.inl h1))
    · rcases ih h2 with h3 | h4
      · exact Or.inl (List.mem_append.mpr (Or.inr h3))
      · exact Or.inr h4

theorem push_keys (v : InvVector) (r : Nat) (l : List (InvVector × List Nat)) :
    (pushPending v r l).map Prod.fst = l.map Prod.fst := by
  induction l with
  | nil => rfl
  | cons p l ih =>
    rw [pushPending_cons, List.map_cons, List.map_cons, ih]
    congr 1
    split
    · rfl
    · rfl

theorem push_id {v : InvVector} {r : Nat} {l : List (InvVector × List Nat)}
    (h : ∀ p ∈ l, p.1 ≠ v) : pushPending v r l = l := by
  induction l with
  | nil => rfl
  | cons p l ih =>
    rw [pushPending_cons, if_neg (h p (List.mem_cons_self _ _))]
    rw [ih (fun q hq => h q (List.mem_cons_of_mem _ hq))]

theorem push_rids_nodup {v : InvVector} {r : Nat} {l : List (InvVector × List Nat)}
    (hnd : (ridsL l).Nodup) (hk : (l.map Prod.fst).Nodup)
    (hfresh : r ∉ ridsL l) : (ridsL (pushPending v r l)).Nodup := by
  induction l with
  | nil => simp [pushPending, ridsL]
  | cons p l ih =>
    rw [ridsL_cons, List.nodup_append] at hnd
    rw [List.map_cons, List.nodup_cons] at hk
    rw [ridsL_cons, List.mem_append] at hfresh
    push_neg at hfresh
    rw [pushPending_cons, ridsL_cons]
    by_cases hc : p.1 = v
    · have hid : pushPending v r l = l := by
        apply push_id
        intro q hq hqv
        exact hk.1 (by rw [hc, ← hqv]; exact List.mem_map_of_mem Prod.fst hq)
      rw [if_pos hc, hid]
      rw [List.nodup_append]
      refine ⟨?_, hnd.2.1, ?_⟩
      · rw [List.nodup_append]
        exact ⟨hnd.1, List.nodup_singleton r,
          fun a ha hb => hfresh.1 (List.mem_singleton.mp hb ▸ ha)⟩
      · intro a ha hb
        rcases List.mem_append.mp ha with h1 | h2
        · exact hnd.2.2 h1 hb
        · exact hfresh.2 (List.mem_singleton.mp h2 ▸ hb)
    · rw [if_neg hc]
      rw [List.nodup_append]
      refine ⟨hnd.1, ih hnd.2.1 hk.2 hfresh.2, ?_⟩
      intro a ha hb
      rcases push_rids_mem hb with h1 | h2
      · exact hnd.2.2 ha h1
      · exact hfresh.1 (h2 ▸ ha)

theorem lookup_none_keys {v : InvVector} {l : List (InvVector × List Nat)}
    (h : lookupPending v l = none) : v ∉ l.map Prod.fst := by
  induction l with
  | nil => simp
  | cons p l ih =>
    rw [lookupPending_cons] at h
    split at h
    · cases h
    · rename_i hc
      rw [List.map_cons, List.mem_cons]
      rintro (h1 | h2)
      · exact hc h1.symm
      · exact ih h h2

theorem lookup_push_self {v : InvVector} {r : Nat} {l : List (InvVector × List Nat)}
    (h : lookupPending v l = none) : lookupPending v (pushPending v r l) = none := by
  induction l with
  | nil => rfl
  | cons p l ih =>
    rw [lookupPending_cons] at h
    split at h
    · cases h
    · rename_i hc
      rw [pushPending_cons, if_neg hc, lookupPending_cons, if_neg hc]
      exact ih h

/-! ## Timer armed lemmas -/

theorem timerArmed_cons (p : TimerName × Nat) (t : List (TimerName × Nat)) (n : TimerName) :
    timerArmed n (p :: t) = (decide (p.1 = n) || timerArmed n t) := rfl

theorem timerArmed_clearTimeout_ne {n m : TimerName} (h : n ≠ m)
    (t : List (TimerName × Nat)) : timerArmed n (clearTimeout m t) = timerArmed n t := by
  induction t with
  | nil => rfl
  | cons p t ih =>
    rw [clearTimeout, List.filter_cons]
    split
    · have e1 : timerArmed n (p :: List.filter (fun q => decide (q.1 ≠ m)) t)
          = (decide (p.1 = n) || timerArmed n (clearTimeout m t)) := rfl
      rw [e1, ih, timerArmed_cons]
    · rename_i hp
      have hpm : p.1 = m := by simpa using hp
      have e1 : List.filter (fun q => decide (q.1 ≠ m)) t = clearTimeout m t := rfl
      rw [e1, ih, timerArmed_cons]
      have hd : decide (p.1 = n) = false := by
        simp only [hpm, decide_eq_false_iff_not]
        exact fun hc => h hc.symm
      rw [hd, Bool.false_or]

theorem timerArmed_setTimeout_ne {n m : TimerName} (h : n ≠ m) (d : Nat)
    (t : List (TimerName × Nat)) : timerArmed n (setTimeout m d t) = timerArmed n t := by
  rw [setTimeout]
  have e1 : timerArmed n ((m, d) :: clearTimeout m t)
      = (decide (m = n) || timerArmed n (clearTimeout m t)) := rfl
  rw [e1, timerArmed_clearTimeout_ne h]
  have hd : decide (m = n) = false := by
    simp only [decide_eq_false_iff_not]
    exact fun hc => h hc.symm
  rw [hd, Bool.false_or]

theorem timerArmed_clearTimeout_self (n : TimerName) (t : List (TimerName × Nat)) :
    timerArmed n (clearTimeout n t) = false := by
  induction t with
  | nil => rfl
  | cons p t ih =>
    rw [clearTimeout, List.filter_cons]
    split
    · rename_i hp
      have e1 : timerArmed n (p :: List.filter (fun q => decide (q.1 ≠ n)) t)
          = (decide (p.1 = n) || timerArmed n (clearTimeout n t)) := rfl
      rw [e1, ih]
      have hd : decide (p.1 = n) = false := by
        simp only [decide_eq_false_iff_not]
        simpa using hp
      rw [hd, Bool.false_or]
    · have e1 : List.filter (fun q => decide (q.1 ≠ n)) t = clearTimeout n t := rfl
      rw [e1]
      exact ih

theorem timerArmed_setTimeout_self (n : TimerName) (d : Nat)
    (t : List (TimerName × Nat)) : timerArmed n (setTimeout n d t) = true := by
  rw [setTimeout]
  have e1 : timerArmed n ((n, d) :: clearTimeout n t)
      = (decide (n = n) || timerArmed n (clearTimeout n t)) := rfl
  rw [e1]
  simp

theorem reqTimerName_inj {v w : InvVector} (h : reqTimerName v = reqTimerName w) : v = w := by
  obtain ⟨tv, hv⟩ := v
  obtain ⟨tw, hw⟩ := w
  cases tv <;> cases tw <;> simp [reqTimerName] at h <;> simp [h]

/-! ## C1: settlement bookkeeping -/

theorem settledRids_append (os₁ os₂ : List Output) :
    settledRids (os₁ ++ os₂) = settledRids os₁ ++ settledRids os₂ := by
  simp [settledRids]

theorem settledRids_map (rs : List Nat) (oc : Outcome) :
    settledRids (rs.map (fun r => Output.settled r oc)) = rs := by
  induction rs with
  | nil => rfl
  | cons r rs ih => simp [settledRids, List.filterMap_cons] at ih ⊢; exact ih

theorem settledOf_map (rs : List Nat) (oc : Outcome) :
    settledOf (rs.map (fun r => Output.settled r oc)) = rs.map (fun r => (r, oc)) := by
  induction rs with
  | nil => rfl
  | cons r rs ih => simp [settledOf, List.filterMap_cons] at ih ⊢; exact ih

theorem settledOf_append (os₁ os₂ : List Output) :
    settledOf (os₁ ++ os₂) = settledOf os₁ ++ settledOf os₂ := by
  simp [settledOf]

theorem settledRids_eq_nil {os : List Output} (h : settledOf os = []) :
    settledRids os = [] := by
  induction os with
  | nil => rfl
  | cons o os ih =>
    cases o with
    | settled r oc => simp [settledOf, List.filterMap_cons] at h
    | getDataMsg vs =>
      simp only [settledOf, List.filterMap_cons] at h
      simp only [settledRids, List.filterMap_cons]
      exact ih h
    | getHeaderMsg vs =>
      simp only [settledOf, List.filterMap_cons] at h
      simp only [settledRids, List.filterMap_cons]
      exact ih h
    | invMsg vs =>
      simp only [settledOf, List.filterMap_cons] at h
      simp only [settledRids, List.filterMap_cons]
      exact ih h
    | closeChannel c =>
      simp only [settledOf, List.filterMap_cons] at h
      simp only [settledRids, List.filterMap_cons]
      exact ih h

/-- The bookkeeping invariant connecting the pending-request table, the fresh
resolver-id counter, and the resolver ids settled so far: registered ids are
pairwise distinct and below the counter, table keys are distinct, and the ids
settled so far are distinct, below the counter, and no longer registered. -/
def PendInv (s : AgentState) (settled : List Nat) : Prop :=
  (ridsL s.pendingRequests).Nodup ∧
  (s.pendingRequests.map Prod.fst).Nodup ∧
  settled.Nodup ∧
  (∀ r ∈ settled, r ∉ ridsL s.pendingRequests) ∧
  (∀ r ∈ ridsL s.pendingRequests, r < s.nextRid) ∧
  (∀ r ∈ settled, r < s.nextRid)

theorem PendInv_carry {s' s : AgentState} {settled : List Nat}
    (hp : s'.pendingRequests = s.pendingRequests) (hn : s'.nextRid = s.nextRid)
    (hI : PendInv s settled) : PendInv s' settled := by
  unfold PendInv at hI ⊢
  rw [hp, hn]
  exact hI

theorem PendInv_settled_nil {s : AgentState} {settled srids : List Nat}
    (h : srids = []) (hI : PendInv s settled) : PendInv s (settled ++ srids) := by
  rw [h, List.append_nil]
  exact hI

theorem PendInv_settled_eq {s : AgentState} {settled rs srids : List Nat}
    (h : srids = rs) (hI : PendInv s (settled ++ rs)) : PendInv s (settled ++ srids) := by
  rw [h]
  exact hI

theorem PendInv_push {s : AgentState} {settled : List Nat} (v : InvVector)
    (hI : PendInv s settled) :
    PendInv { s with pendingRequests := pushPending v s.nextRid s.pendingRequests,
                     nextRid := s.nextRid + 1 } settled := by
  obtain ⟨h1, h2, h3, h4, h5, h6⟩ := hI
  have hfresh : s.nextRid ∉ ridsL s.pendingRequests :=
    fun hmem => lt_irrefl _ (h5 _ hmem)
  refine ⟨push_rids_nodup h1 h2 hfresh, ?_, h3, ?_, ?_, ?_⟩
  · rw [push_keys]
    exact h2
  · intro r hr hmem
    rcases push_rids_mem hmem with hm | hm
    · exact h4 r hr hm
    · exact lt_irrefl _ (hm ▸ h6 r hr)
  · intro r hr
    rcases push_rids_mem hr with hm | hm
    · exact Nat.lt_succ_of_lt (h5 r hm)
    · exact hm ▸ Nat.lt_succ_self _
  · exact fun r hr => Nat.lt_succ_of_lt (h6 r hr)

theorem PendInv_register {s : AgentState} {settled : List Nat} (v : InvVector)
    (hI : PendInv s settled) (hl : lookupPending v s.pendingRequests = none) :
    PendInv { s with pendingRequests := s.pendingRequests ++ [(v, [s.nextRid])],
                     nextRid := s.nextRid + 1 } settled := by
  obtain ⟨h1, h2, h3, h4, h5, h6⟩ := hI
  have hre : ridsL (s.pendingRequests ++ [(v, [s.nextRid])])
      = ridsL s.pendingRequests ++ [s.nextRid] := by
    rw [ridsL_append]
    rfl
  refine ⟨?_, ?_, h3, ?_, ?_, ?_⟩
  · rw [hre, List.nodup_append]
    exact ⟨h1, List.nodup_singleton _,
      fun a ha hb => lt_irrefl _ (List.mem_singleton.mp hb ▸ h5 a ha)⟩
  · rw [List.map_append, List.nodup_append]
    refine ⟨h2, List.nodup_singleton _, ?_⟩
    intro a ha hb
    have hb' : a = v := by simpa using hb
    subst hb'
    exact lookup_none_keys hl ha
  · intro r hr
    rw [hre, List.mem_append]
    rintro (hm | hm)
    · exact h4 r hr hm
    · exact lt_irrefl _ (List.mem_singleton.mp hm ▸ h6 r hr)
  · intro r hr
    rw [hre] at hr
    rcases List.mem_append.mp hr with hm | hm
    · exact Nat.lt_succ_of_lt (h5 r hm)
    · exact List.mem_singleton.mp hm ▸ Nat.lt_succ_self _
  · exact fun r hr => Nat.lt_succ_of_lt (h6 r hr)

theorem PendInv_settle {s : AgentState} {settled rs : List Nat} (v : InvVector)
    (hI : PendInv s settled) (hl : lookupPending v s.pendingRequests = some rs) :
    PendInv { s with pendingRequests := erasePending v s.pendingRequests }
      (settled ++ rs) := by
  obtain ⟨h1, h2, h3, h4, h5, h6⟩ := hI
  refine ⟨List.Nodup.sublist (erase_rids_sublist v _) h1,
    List.Nodup.sublist (erase_keys_sublist v _) h2, ?_, ?_, ?_, ?_⟩
  · rw [List.nodup_append]
    exact ⟨h3, lookup_rs_nodup h1 hl,
      fun a ha hb => h4 a ha (lookup_mem_rids hl a hb)⟩
  · intro r hr
    rcases List.mem_append.mp hr with ha | hb
    · exact fun hmem => h4 r ha ((erase_rids_sublist v _).subset hmem)
    · exact erase_removes_looked h1 hl r hb
  · exact fun r hr => h5 r ((erase_rids_sublist v _).subset hr)
  · intro r hr
    rcases List.mem_append.mp hr with ha | hb
    · exact h6 r ha
    · exact h5 r (lookup_mem_rids hl r hb)

theorem PendInv_requestData {s : AgentState} {settled : List Nat}
    (hI : PendInv s settled) :
    PendInv (requestData s).1 (settled ++ settledRids (requestData s).2) := by
  have hk := requestData_keeps s
  exact PendInv_settled_nil (settledRids_eq_nil hk.2.2.2)
    (PendInv_carry hk.2.1 hk.2.2.1 hI)

theorem PendInv_noMoreData {s : AgentState} {settled : List Nat}
    (hI : PendInv s settled) :
    PendInv (noMoreData s).1 (settled ++ settledRids (noMoreData s).2) := by
  have hk := noMoreData_keeps s
  exact PendInv_settled_nil (settledRids_eq_nil hk.2.2.2)
    (PendInv_carry hk.2.1 hk.2.2.1 hI)

theorem PendInv_onObjectReceived {s : AgentState} {settled : List Nat} (v : InvVector)
    (hI : PendInv s settled) :
    PendInv (onObjectReceived v s).1 (settled ++ settledRids (onObjectReceived v s).2) := by
  have hk := onObjectReceived_keeps v s
  exact PendInv_settled_nil (settledRids_eq_nil hk.2.2.2)
    (PendInv_carry hk.2.1 hk.2.2.1 hI)

theorem PendInv_notFoundOne {s : AgentState} {settled : List Nat} (w : InvVector)
    (hI : PendInv s settled) :
    PendInv (notFoundOne s w).1 (settled ++ settledRids (notFoundOne s w).2) := by
  simp only [notFoundOne]
  split
  · split
    · rename_i rs heq
      dsimp only
      rw [settledRids_append, settledRids_map,
        settledRids_eq_nil (onObjectReceived_keeps w _).2.2.2, List.append_nil]
      exact PendInv_carry (onObjectReceived_keeps w _).2.1 (onObjectReceived_keeps w _).2.2.1
        (PendInv_settle w hI heq)
    · dsimp only
      rw [List.nil_append]
      exact PendInv_onObjectReceived w hI
  · split
    · rename_i rs heq
      dsimp only
      rw [settledRids_map]
      exact PendInv_settle w hI heq
    · exact PendInv_settled_nil rfl hI

theorem PendInv_onNotFound {s : AgentState} {settled : List Nat} (vs : List InvVector)
    (hI : PendInv s settled) :
    PendInv (onNotFound vs s).1 (settled ++ settledRids (onNotFound vs s).2) := by
  rw [onNotFound]
  have H : ∀ (acc : AgentState × List Output) (s0 : List Nat),
      PendInv acc.1 (s0 ++ settledRids acc.2) →
      PendInv ((vs.foldl (fun acc w =>
        let p := notFoundOne acc.1 w
        (p.1, acc.2 ++ p.2)) acc).1)
        (s0 ++ settledRids ((vs.foldl (fun acc w =>
          let p := notFoundOne acc.1 w
          (p.1, acc.2 ++ p.2)) acc).2)) := by
    induction vs with
    | nil => exact fun acc s0 h => h
    | cons w ws ih =>
      intro acc s0 h
      have h3 : PendInv (notFoundOne acc.1 w).1
          (s0 ++ settledRids (acc.2 ++ (notFoundOne acc.1 w).2)) := by
        rw [settledRids_append, ← List.append_assoc]
        exact PendInv_notFoundOne w h
      exact ih ((notFoundOne acc.1 w).1, acc.2 ++ (notFoundOne acc.1 w).2) s0 h3
  have h0 : PendInv s (settled ++ settledRids ([] : List Output)) := by
    rw [show settledRids ([] : List Output) = [] from rfl, List.append_nil]
    exact hI
  exact H (s, []) settled h0

theorem PendInv_onTxDone {s : AgentState} {settled : List Nat} (tx : Transaction)
    (now : Nat) (hI : PendInv s settled) :
    PendInv (onTxDone tx now s).1 (settled ++ settledRids (onTxDone tx now s).2) := by
  simp only [onTxDone]
  split
  · rename_i rs heq
    exact PendInv_settled_eq (settledRids_map rs .resolvedO) (PendInv_settle _ hI heq)
  · split
    · exact PendInv_settled_nil rfl hI
    · exact PendInv_settled_nil rfl hI

theorem step_pend {s : AgentState} (e : Event) {settled : List Nat}
    (hI : PendInv s settled) :
    PendInv (step s e).1 (settled ++ settledRids (step s e).2) := by
  cases e with
  | reqBlock h =>
    simp only [step, requestBlockStep]
    split
    · exact PendInv_settled_nil rfl (PendInv_push _ hI)
    · rename_i heq
      exact PendInv_settled_nil rfl (PendInv_register _ hI heq)
  | reqTx h =>
    simp only [step, requestTransactionStep]
    split
    · exact PendInv_settled_nil rfl (PendInv_push _ hI)
    · rename_i heq
      split
      · exact PendInv_settled_nil rfl (PendInv_register _ hI heq)
      · exact PendInv_settled_nil rfl (PendInv_register _ hI heq)
  | reqVector vs =>
    simp only [step, requestVectorStep]
    split
    · exact PendInv_requestData hI
    · exact PendInv_settled_nil rfl hI
  | invTimer =>
    simp only [step]
    split
    · exact PendInv_requestData hI
    · exact PendInv_settled_nil rfl hI
  | getDataTimer =>
    simp only [step]
    split
    · exact PendInv_noMoreData hI
    · exact PendInv_settled_nil rfl hI
  | blockReqTimeout h =>
    simp only [step]
    split
    · simp only [reqTimeoutBody]
      split
      · exact PendInv_settled_nil rfl hI
      · rename_i rs heq
        exact PendInv_settled_eq (settledRids_map rs .timedOutO) (PendInv_settle _ hI heq)
    · exact PendInv_settled_nil rfl hI
  | txReqTimeout h =>
    simp only [step]
    split
    · simp only [reqTimeoutBody]
      split
      · exact PendInv_settled_nil rfl hI
      · rename_i rs heq
        exact PendInv_settled_eq (settledRids_map rs .timedOutO) (PendInv_settle _ hI heq)
    · exact PendInv_settled_nil rfl hI
  | knowsBlockTimer h =>
    simp only [step]
    split
    · exact PendInv_settled_nil rfl hI
    · exact PendInv_settled_nil rfl hI
  | knowsTxTimer h =>
    simp only [step]
    split
    · exact PendInv_settled_nil rfl hI
    · exact PendInv_settled_nil rfl hI
  | blockMsg h =>
    simp only [step, onBlockStart]
    split
    · rename_i rs heq
      exact PendInv_settled_eq (settledRids_map rs .resolvedO) (PendInv_settle _ hI heq)
    · split
      · have hk := onObjectReceived_keeps ⟨.block, h⟩ s
        exact PendInv_settled_nil (settledRids_eq_nil hk.2.2.2)
          (PendInv_carry hk.2.1 hk.2.2.1 hI)
      · exact PendInv_settled_nil rfl hI
  | blockDone h => exact PendInv_settled_nil rfl hI
  | headerMsg h =>
    simp only [step, onHeaderStart]
    split
    · have hk := onObjectReceived_keeps ⟨.block, h⟩ s
      exact PendInv_settled_nil (settledRids_eq_nil hk.2.2.2)
        (PendInv_carry hk.2.1 hk.2.2.1 hI)
    · exact PendInv_settled_nil rfl hI
  | headerDone h => exact PendInv_settled_nil rfl hI
  | txMsg tx now =>
    simp only [step, onTxStart]
    split
    · have hk := onObjectReceived_keeps (InvVector.fromTransaction tx) s
      split
      · exact PendInv_settled_nil (settledRids_eq_nil hk.2.2.2)
          (PendInv_carry hk.2.1 hk.2.2.1 hI)
      · have h1 := PendInv_onTxDone (s := { (onObjectReceived (InvVector.fromTransaction tx) s).1 with
            objectsProcessing := hsAdd (InvVector.fromTransaction tx)
              (onObjectReceived (InvVector.fromTransaction tx) s).1.objectsProcessing })
          tx now (PendInv_carry hk.2.1 hk.2.2.1 hI)
        rw [settledRids_append, settledRids_eq_nil hk.2.2.2, List.nil_append]
        exact h1
    · exact PendInv_settled_nil rfl hI
  | txDone tx now =>
    simp only [step]
    split
    · exact PendInv_onTxDone tx now hI
    · exact PendInv_settled_nil rfl hI
  | notFoundMsg vs =>
    simp only [step]
    exact PendInv_onNotFound vs hI
  | invIngress vs =>
    have hf := onInvStep_fields vs s
    exact PendInv_settled_nil rfl (PendInv_carry hf.2.2.2.1 hf.2.2.2.2.2 hI)
  | subscribeEv sub now => exact PendInv_settled_nil rfl hI
  | relayTx tx =>
    have hf := relayTx_fields tx s
    exact PendInv_settled_nil rfl (PendInv_carry hf.2.2.2.1 hf.2.2.2.2.1 hI)
  | removeTx tx => exact PendInv_settled_nil rfl hI
  | relayBlockEv h =>
    simp only [step, relayBlockStep]
    split
    · exact PendInv_settled_nil rfl hI
    · split
      · exact PendInv_settled_nil rfl hI
      · split
        · exact PendInv_settled_nil rfl hI
        · exact PendInv_settled_nil rfl hI
  | sendWaiting =>
    simp only [step, sendWaitingStep]
    exact PendInv_settled_nil (by split <;> rfl) hI
  | sendFree =>
    simp only [step, sendFreeStep]
    exact PendInv_settled_nil (by split <;> rfl) hI

theorem run_pend {s : AgentState} {settled : List Nat} (es : List Event)
    (hI : PendInv s settled) :
    PendInv (run s es).1 (settled ++ settledRids (run s es).2) := by
  induction es generalizing s settled with
  | nil =>
    rw [show settledRids ((run s []).2) = [] from rfl, List.append_nil]
    exact hI
  | cons e es ih =>
    have h2 := ih (step_pend e hI)
    have h3 : PendInv (run (step s e).1 es).1
        (settled ++ settledRids ((step s e).2 ++ (run (step s e).1 es).2)) := by
      rw [settledRids_append, ← List.append_assoc]
      exact h2
    exact h3

/-! ## C1: the per-vector request timer stays armed while an entry is pending -/

theorem lookup_push_none {v w : InvVector} {r : Nat} {l : List (InvVector × List Nat)}
    (h : lookupPending w l = none) : lookupPending w (pushPending v r l) = none := by
  induction l with
  | nil => rfl
  | cons p l ih =>
    rw [lookupPending_cons] at h
    split at h
    · cases h
    · rename_i hc
      by_cases hv : p.1 = v
      · rw [pushPending_cons, if_pos hv, lookupPending_cons, if_neg hc]
        exact ih h
      · rw [pushPending_cons, if_neg hv, lookupPending_cons, if_neg hc]
        exact ih h

theorem lookup_append_one {w v : InvVector} {l : List (InvVector × List Nat)}
    {e rs : List Nat} (h : lookupPending w (l ++ [(v, e)]) = some rs) :
    lookupPending w l = some rs ∨ (w = v ∧ rs = e) := by
  induction l with
  | nil =>
    rw [List.nil_append, lookupPending_cons] at h
    split at h
    · rename_i hc
      cases h
      exact Or.inr ⟨hc.symm, rfl⟩
    · cases h
  | cons p l ih =>
    rw [List.cons_append, lookupPending_cons] at h
    rw [lookupPending_cons]
    split at h
    · rename_i hc
      rw [if_pos hc]
      exact Or.inl h
    · rename_i hc
      rw [if_neg hc]
      exact ih h

theorem reqTimerName_ne_getData2 (v : InvVector) : reqTimerName v ≠ .getData := by
  obtain ⟨ty, hV⟩ := v
  cases ty <;> simp [reqTimerName]

theorem reqTimerName_ne_invT (v : InvVector) : reqTimerName v ≠ .invT := by
  obtain ⟨ty, hV⟩ := v
  cases ty <;> simp [reqTimerName]

theorem reqTimerName_ne_knowsTx (v : InvVector) (h : Nat) :
    reqTimerName v ≠ .knowsTx h := by
  obtain ⟨ty, hV⟩ := v
  cases ty <;> simp [reqTimerName]

theorem reqTimerName_ne_knowsBlock (v : InvVector) (h : Nat) :
    reqTimerName v ≠ .knowsBlock h := by
  obtain ⟨ty, hV⟩ := v
  cases ty <;> simp [reqTimerName]

theorem requestData_timer (s : AgentState) (n : TimerName) (hne : n ≠ .getData) :
    timerArmed n (requestData s).1.timers = timerArmed n s.timers := by
  rw [requestData]
  split
  · rfl
  · split
    · rfl
    · exact timerArmed_setTimeout_ne hne _ _

theorem noMoreData_timer (s : AgentState) (n : TimerName) (hne : n ≠ .getData) :
    timerArmed n (noMoreData s).1.timers = timerArmed n s.timers := by
  rw [noMoreData]
  split
  · rw [requestData_timer _ _ hne]
    exact timerArmed_clearTimeout_ne hne _
  · exact timerArmed_clearTimeout_ne hne _

theorem onObjectReceived_timer (v : InvVector) (s : AgentState) (n : TimerName)
    (hne : n ≠ .getData) :
    timerArmed n (onObjectReceived v s).1.timers = timerArmed n s.timers := by
  simp only [onObjectReceived]
  split
  · rfl
  · split
    · exact timerArmed_setTimeout_ne hne _ _
    · exact noMoreData_timer _ _ hne

/-- The invariant behind claim C1's "no resolver is left unsettled": while a
pending entry exists for a vector, its per-vector request timer is armed, so
one of the three settling events is still scheduled. -/
def PendTimerInv (s : AgentState) : Prop :=
  ∀ (v : InvVector) (rs : List Nat),
    lookupPending v s.pendingRequests = some rs →
    timerArmed (reqTimerName v) s.timers = true

theorem PendTimer_settleState {s : AgentState} (v : InvVector) (hT : PendTimerInv s) :
    PendTimerInv { s with pendingRequests := erasePending v s.pendingRequests,
                          timers := clearTimeout (reqTimerName v) s.timers } := by
  intro w rs hl
  have hl0 : lookupPending w (erasePending v s.pendingRequests) = some rs := hl
  show timerArmed (reqTimerName w) (clearTimeout (reqTimerName v) s.timers) = true
  by_cases hwv : w = v
  · subst hwv
    rw [lookupPending_erase] at hl0
    cases hl0
  · have hl' : lookupPending w s.pendingRequests = some rs := by
      rw [← lookup_erase_other (l := s.pendingRequests) hwv]
      exact hl0
    rw [timerArmed_clearTimeout_ne (fun hh => hwv (reqTimerName_inj hh))]
    exact hT w rs hl'

theorem PendTimer_registerState {s : AgentState} (v : InvVector) (d : Nat)
    (hT : PendTimerInv s) :
    PendTimerInv { s with pendingRequests := s.pendingRequests ++ [(v, [s.nextRid])],
                          nextRid := s.nextRid + 1,
                          timers := setTimeout (reqTimerName v) d s.timers } := by
  intro w rs hl
  rcases lookup_append_one hl with h1 | h2
  · by_cases hwv : w = v
    · subst hwv
      rw [timerArmed_setTimeout_self]
    · rw [timerArmed_setTimeout_ne (fun hh => hwv (reqTimerName_inj hh))]
      exact hT w rs h1
  · rw [h2.1, timerArmed_setTimeout_self]

theorem PendTimer_pushState {s : AgentState} (v : InvVector) (hT : PendTimerInv s) :
    PendTimerInv { s with pendingRequests := pushPending v s.nextRid s.pendingRequests,
                          nextRid := s.nextRid + 1 } := by
  intro w rs hl
  have hl1 : lookupPending w (pushPending v s.nextRid s.pendingRequests) = some rs := hl
  show timerArmed (reqTimerName w) s.timers = true
  by_cases hl0 : lookupPending w s.pendingRequests = none
  · rw [lookup_push_none hl0] at hl1
    cases hl1
  · obtain ⟨rs0, hrs0⟩ := Option.ne_none_iff_exists'.mp hl0
    exact hT w rs0 hrs0

theorem PendTimer_clear_other {s : AgentState} (n : TimerName)
    (hn : ∀ v, reqTimerName v ≠ n) (hT : PendTimerInv s) :
    PendTimerInv { s with timers := clearTimeout n s.timers } := by
  intro w rs hl
  show timerArmed (reqTimerName w) (clearTimeout n s.timers) = true
  rw [timerArmed_clearTimeout_ne (hn w)]
  exact hT w rs hl

theorem PendTimer_set_other {s : AgentState} (n : TimerName) (d : Nat)
    (hn : ∀ v, reqTimerName v ≠ n) (hT : PendTimerInv s) :
    PendTimerInv { s with timers := setTimeout n d s.timers } := by
  intro w rs hl
  show timerArmed (reqTimerName w) (setTimeout n d s.timers) = true
  rw [timerArmed_setTimeout_ne (hn w)]
  exact hT w rs hl

theorem PendTimer_requestData {s : AgentState} (hT : PendTimerInv s) :
    PendTimerInv (requestData s).1 := by
  intro w rs hl
  rw [(requestData_keeps s).2.1] at hl
  rw [requestData_timer s _ (reqTimerName_ne_getData2 w)]
  exact hT w rs hl

theorem PendTimer_noMoreData {s : AgentState} (hT : PendTimerInv s) :
    PendTimerInv (noMoreData s).1 := by
  intro w rs hl
  rw [(noMoreData_keeps s).2.1] at hl
  rw [noMoreData_timer s _ (reqTimerName_ne_getData2 w)]
  exact hT w rs hl

theorem PendTimer_onObjectReceived {s : AgentState} {v : InvVector} (hT : PendTimerInv s) :
    PendTimerInv (onObjectReceived v s).1 := by
  intro w rs hl
  rw [(onObjectReceived_keeps v s).2.1] at hl
  rw [onObjectReceived_timer v s _ (reqTimerName_ne_getData2 w)]
  exact hT w rs hl

theorem PendTimer_notFoundOne {s : AgentState} (w : InvVector) (hT : PendTimerInv s) :
    PendTimerInv (notFoundOne s w).1 := by
  simp only [notFoundOne]
  split
  · split
    · exact PendTimer_onObjectReceived (PendTimer_settleState w hT)
    · exact PendTimer_onObjectReceived hT
  · split
    · exact PendTimer_settleState w hT
    · exact hT

theorem PendTimer_onNotFound {s : AgentState} (vs : List InvVector) (hT : PendTimerInv s) :
    PendTimerInv (onNotFound vs s).1 := by
  rw [onNotFound]
  have H : ∀ (acc : AgentState × List Output), PendTimerInv acc.1 →
      PendTimerInv ((vs.foldl (fun acc w =>
        let p := notFoundOne acc.1 w
        (p.1, acc.2 ++ p.2)) acc).1) := by
    induction vs with
    | nil => exact fun acc h => h
    | cons w ws ih => exact fun acc h => ih _ (PendTimer_notFoundOne w h)
  exact H (s, []) hT

theorem PendTimer_onTxDone {s : AgentState} (tx : Transaction) (now : Nat)
    (hT : PendTimerInv s) : PendTimerInv (onTxDone tx now s).1 := by
  simp only [onTxDone]
  split
  · exact PendTimer_settleState (InvVector.fromTransaction tx) hT
  · split
    · exact hT
    · exact hT

theorem step_pendTimer {s : AgentState} (e : Event) (hT : PendTimerInv s) :
    PendTimerInv (step s e).1 := by
  cases e with
  | reqBlock h =>
    simp only [step, requestBlockStep]
    split
    · exact PendTimer_pushState _ hT
    · exact PendTimer_registerState ⟨.block, h⟩ REQUEST_TIMEOUT hT
  | reqTx h =>
    simp only [step, requestTransactionStep]
    split
    · exact PendTimer_pushState _ hT
    · split
      · exact PendTimer_registerState ⟨.transaction, h⟩ REQUEST_TIMEOUT hT
      · exact PendTimer_registerState ⟨.transaction, h⟩ REQUEST_TIMEOUT hT
  | reqVector vs =>
    simp only [step, requestVectorStep]
    split
    · exact PendTimer_requestData (PendTimer_clear_other .invT reqTimerName_ne_invT hT)
    · exact PendTimer_set_other .invT REQUEST_THROTTLE reqTimerName_ne_invT
        (PendTimer_clear_other .invT reqTimerName_ne_invT hT)
  | invTimer =>
    simp only [step]
    split
    · exact PendTimer_requestData (PendTimer_clear_other .invT reqTimerName_ne_invT hT)
    · exact hT
  | getDataTimer =>
    simp only [step]
    split
    · exact PendTimer_noMoreData
        (PendTimer_clear_other .getData (fun v => reqTimerName_ne_getData2 v) hT)
    · exact hT
  | blockReqTimeout h =>
    simp only [step]
    split
    · simp only [reqTimeoutBody]
      split
      · rename_i heq
        intro w rs hl
        have hl1 : lookupPending w s.pendingRequests = some rs := hl
        show timerArmed (reqTimerName w)
          (clearTimeout (reqTimerName (⟨.block, h⟩ : InvVector)) s.timers) = true
        by_cases hwv : w = (⟨.block, h⟩ : InvVector)
        · subst hwv
          rw [heq] at hl1
          cases hl1
        · rw [timerArmed_clearTimeout_ne (fun hh => hwv (reqTimerName_inj hh))]
          exact hT w rs hl1
      · rename_i rs0 heq
        intro w rs hl
        have hl1 : lookupPending w
            (erasePending (⟨.block, h⟩ : InvVector) s.pendingRequests) = some rs := hl
        show timerArmed (reqTimerName w)
          (clearTimeout (reqTimerName (⟨.block, h⟩ : InvVector)) s.timers) = true
        by_cases hwv : w = (⟨.block, h⟩ : InvVector)
        · subst hwv
          rw [lookupPending_erase] at hl1
          cases hl1
        · rw [lookup_erase_other hwv] at hl1
          rw [timerArmed_clearTimeout_ne (fun hh => hwv (reqTimerName_inj hh))]
          exact hT w rs hl1
    · exact hT
  | txReqTimeout h =>
    simp only [step]
    split
    · simp only [reqTimeoutBody]
      split
      · rename_i heq
        intro w rs hl
        have hl1 : lookupPending w s.pendingRequests = some rs := hl
        show timerArmed (reqTimerName w)
          (clearTimeout (reqTimerName (⟨.transaction, h⟩ : InvVector)) s.timers) = true
        by_cases hwv : w = (⟨.transaction, h⟩ : InvVector)
        · subst hwv
          rw [heq] at hl1
          cases hl1
        · rw [timerArmed_clearTimeout_ne (fun hh => hwv (reqTimerName_inj hh))]
          exact hT w rs hl1
      · rename_i rs0 heq
        intro w rs hl
        have hl1 : lookupPending w
            (erasePending (⟨.transaction, h⟩ : InvVector) s.pendingRequests) = some rs := hl
        show timerArmed (reqTimerName w)
          (clearTimeout (reqTimerName (⟨.transaction, h⟩ : InvVector)) s.timers) = true
        by_cases hwv : w = (⟨.transaction, h⟩ : InvVector)
        · subst hwv
          rw [lookupPending_erase] at hl1
          cases hl1
        · rw [lookup_erase_other hwv] at hl1
          rw [timerArmed_clearTimeout_ne (fun hh => hwv (reqTimerName_inj hh))]
          exact hT w rs hl1
    · exact hT
  | knowsBlockTimer h =>
    simp only [step]
    split
    · exact PendTimer_clear_other (.knowsBlock h) (fun v => reqTimerName_ne_knowsBlock v h) hT
    · exact hT
  | knowsTxTimer h =>
    simp only [step]
    split
    · exact PendTimer_clear_other (.knowsTx h) (fun v => reqTimerName_ne_knowsTx v h) hT
    · exact hT
  | blockMsg h =>
    simp only [step, onBlockStart]
    split
    · exact PendTimer_settleState ⟨.block, h⟩ hT
    · split
      · exact PendTimer_onObjectReceived hT
      · exact hT
  | blockDone h => exact hT
  | headerMsg h =>
    simp only [step, onHeaderStart]
    split
    · exact PendTimer_onObjectReceived hT
    · exact hT
  | headerDone h => exact hT
  | txMsg tx now =>
    simp only [step, onTxStart]
    split
    · split
      · exact PendTimer_onObjectReceived hT
      · exact PendTimer_onTxDone tx now (PendTimer_onObjectReceived hT)
    · exact hT
  | txDone tx now =>
    simp only [step]
    split
    · exact PendTimer_onTxDone tx now hT
    · exact hT
  | notFoundMsg vs =>
    simp only [step]
    exact PendTimer_onNotFound vs hT
  | invIngress vs =>
    intro w rs hl
    have hf := onInvStep_fields vs s
    rw [show (step s (.invIngress vs)).1 = onInvStep vs s from rfl] at hl ⊢
    rw [hf.2.2.2.2.1]
    rw [hf.2.2.2.1] at hl
    exact hT w rs hl
  | subscribeEv sub now => exact hT
  | relayTx tx =>
    intro w rs hl
    have hf := relayTx_fields tx s
    rw [show (step s (.relayTx tx)).1 = relayTransactionStep tx s from rfl] at hl ⊢
    rw [hf.2.2.2.1] at hl
    rcases hf.2.2.2.2.2 with ht | ht
    · rw [ht]
      exact hT w rs hl
    · rw [ht, timerArmed_setTimeout_ne (reqTimerName_ne_knowsTx w tx.txhash)]
      exact hT w rs hl
  | removeTx tx => exact hT
  | relayBlockEv h =>
    simp only [step, relayBlockStep]
    split
    · exact hT
    · split
      · exact hT
      · split
        · exact hT
        · exact PendTimer_set_other (.knowsBlock h) KNOWS_OBJECT_AFTER_INV_DELAY
            (fun v => reqTimerName_ne_knowsBlock v h) hT
  | sendWaiting => exact hT
  | sendFree => exact hT

theorem run_pendTimer {s : AgentState} (es : List Event) (hT : PendTimerInv s) :
    PendTimerInv (run s es).1 := by
  induction es generalizing s with
  | nil => exact hT
  | cons e es ih => exact ih (step_pendTimer e hT)

/-- C8 witness: a request for address 5 at a block with hash 10 and body hash
20, answered by a proof with matching root containing one transaction whose
sender is 5. -/
theorem c8_transactions_proof_witness :
    onTransactionsProof (some ⟨[5], [], 10, 20⟩)
        ⟨10, some (TxProof.mk [⟨1, 1, 1, 5, 6⟩] (some 20))⟩
      = (none, .resolvedTxs [⟨1, 1, 1, 5, 6⟩]) :=
  (c8_transactions_proof_validation ⟨[5], [], 10, 20⟩
    ⟨10, some (TxProof.mk [⟨1, 1, 1, 5, 6⟩] (some 20))⟩
    (TxProof.mk [⟨1, 1, 1, 5, 6⟩] (some 20))
    rfl rfl rfl).1 (by decide)

/-- C1: every resolver registered through `requestBlock` / `requestTransaction`
receives exactly one of resolve(object) / reject(Timeout) / reject(NotFound).
(1) Along every trace from the constructor state no resolver id is settled
twice.  (2) A block message for a vector with pending resolvers resolves them
all, removes the pending entry and clears the per-vector timer.  (3) The
post-await resumption of a suspended `_onTx` (its vector still marked
processing) does the same.  (4) A
not-found message rejects them all with NotFound, removes the entry and clears
the timer.  (5)/(6) The per-vector `REQUEST_TIMEOUT` callback rejects them all
with Timeout and removes the entry.  (7) While an entry is pending its
per-vector timer stays armed, so one of the settling events (including the
timeout) is still scheduled: no resolver is left unsettled. -/
theorem c1_exactly_one_outcome :
    (∀ (ph : Nat) (es : List Event),
      (settledRids (run (initialState ph) es).2).Nodup) ∧
    (∀ (s : AgentState) (h : Nat) (rs : List Nat),
      lookupPending ⟨.block, h⟩ s.pendingRequests = some rs →
      settledOf (step s (.blockMsg h)).2 = rs.map (fun r => (r, Outcome.resolvedO)) ∧
      lookupPending ⟨.block, h⟩ (step s (.blockMsg h)).1.pendingRequests = none ∧
      timerArmed (.blockRequest h) (step s (.blockMsg h)).1.timers = false) ∧
    (∀ (s : AgentState) (tx : Transaction) (now : Nat) (rs : List Nat),
      InvVector.fromTransaction tx ∈ s.objectsProcessing →
      lookupPending (InvVector.fromTransaction tx) s.pendingRequests = some rs →
      settledOf (step s (.txDone tx now)).2 = rs.map (fun r => (r, Outcome.resolvedO)) ∧
      lookupPending (InvVector.fromTransaction tx)
        (step s (.txDone tx now)).1.pendingRequests = none ∧
      timerArmed (.txRequest tx.txhash) (step s (.txDone tx now)).1.timers = false) ∧
    (∀ (s : AgentState) (v : InvVector) (rs : List Nat),
      lookupPending v s.pendingRequests = some rs →
      settledOf (step s (.notFoundMsg [v])).2 = rs.map (fun r => (r, Outcome.notFoundO)) ∧
      lookupPending v (step s (.notFoundMsg [v])).1.pendingRequests = none ∧
      timerArmed (reqTimerName v) (step s (.notFoundMsg [v])).1.timers = false) ∧
    (∀ (s : AgentState) (h : Nat) (rs : List Nat),
      timerArmed (.blockRequest h) s.timers = true →
      lookupPending ⟨.block, h⟩ s.pendingRequests = some rs →
      settledOf (step s (.blockReqTimeout h)).2 = rs.map (fun r => (r, Outcome.timedOutO)) ∧
      lookupPending ⟨.block, h⟩ (step s (.blockReqTimeout h)).1.pendingRequests = none) ∧
    (∀ (s : AgentState) (h : Nat) (rs : List Nat),
      timerArmed (.txRequest h) s.timers = true →
      lookupPending ⟨.transaction, h⟩ s.pendingRequests = some rs →
      settledOf (step s (.txReqTimeout h)).2 = rs.map (fun r => (r, Outcome.timedOutO)) ∧
      lookupPending ⟨.transaction, h⟩ (step s (.txReqTimeout h)).1.pendingRequests = none) ∧
    (∀ (ph : Nat) (es : List Event) (v : InvVector) (rs : List Nat),
      lookupPending v (run (initialState ph) es).1.pendingRequests = some rs →
      timerArmed (reqTimerName v) (run (initialState ph) es).1.timers = true) := by
  refine ⟨?_, ?_, ?_, ?_, ?_, ?_, ?_⟩
  · intro ph es
    have h0 : PendInv (initialState ph) [] := by
      refine ⟨?_, ?_, ?_, ?_, ?_, ?_⟩ <;> simp [initialState, ridsL]
    have h1 := run_pend (s := initialState ph) es h0
    have h2 := h1.2.2.1
    rwa [List.nil_append] at h2
  · intro s h rs hl
    have hstep : step s (.blockMsg h)
        = ({ s with pendingRequests := erasePending ⟨.block, h⟩ s.pendingRequests,
                    timers := clearTimeout (.blockRequest h) s.timers },
           rs.map (fun r => Output.settled r .resolvedO)) := by
      simp only [step, onBlockStart, hl]
    rw [hstep]
    exact ⟨settledOf_map rs _, lookupPending_erase _ _, timerArmed_clearTimeout_self _ _⟩
  · intro s tx now rs hproc hl
    have hstep : step s (.txDone tx now)
        = (onObjectProcessed (InvVector.fromTransaction tx)
            { s with
                pendingRequests := erasePending (InvVector.fromTransaction tx) s.pendingRequests,
                timers := clearTimeout (.txRequest tx.txhash) s.timers },
           rs.map (fun r => Output.settled r .resolvedO)) := by
      simp only [step]
      rw [if_pos hproc]
      simp only [onTxDone, hl]
    rw [hstep]
    exact ⟨settledOf_map rs _, lookupPending_erase _ _, timerArmed_clearTimeout_self _ _⟩
  · intro s v rs hl
    rw [show step s (.notFoundMsg [v])
      = ((notFoundOne s v).1, [] ++ (notFoundOne s v).2) from rfl]
    simp only [List.nil_append, notFoundOne, hl]
    split
    · refine ⟨?_, ?_, ?_⟩
      · rw [settledOf_append, settledOf_map, (onObjectReceived_keeps _ _).2.2.2,
          List.append_nil]
      · rw [(onObjectReceived_keeps _ _).2.1]
        exact lookupPending_erase _ _
      · rw [onObjectReceived_timer _ _ _ (reqTimerName_ne_getData2 v)]
        exact timerArmed_clearTimeout_self _ _
    · exact ⟨settledOf_map rs _, lookupPending_erase _ _, timerArmed_clearTimeout_self _ _⟩
  · intro s h rs ht hl
    have hl2 : lookupPending (⟨.block, h⟩ : InvVector)
        ({ s with timers := clearTimeout (.blockRequest h) s.timers }
          : AgentState).pendingRequests = some rs := hl
    simp only [step, ht, if_true, reqTimeoutBody, hl2, hl]
    exact ⟨settledOf_map rs _, lookupPending_erase _ _⟩
  · intro s h rs ht hl
    have hl2 : lookupPending (⟨.transaction, h⟩ : InvVector)
        ({ s with timers := clearTimeout (.txRequest h) s.timers }
          : AgentState).pendingRequests = some rs := hl
    simp only [step, ht, if_true, reqTimeoutBody, hl2, hl]
    exact ⟨settledOf_map rs _, lookupPending_erase _ _⟩
  · intro ph es v rs hl
    have h0 : PendTimerInv (initialState ph) := by
      intro w rs0 hl0
      simp [initialState, lookupPending] at hl0
    exact run_pendTimer es h0 v rs hl

/-- C1 witness: a direct block request for hash 5 (resolver id 0) is resolved
by the block, timed out, and a direct transaction request for hash 7 is
resolved (after a genuine suspension of `_onTx`, the agent having subscribed
to everything), not-found-rejected and timed out, each settling exactly ⟨0⟩;
the request timer is armed while the entry is pending and no trace settles an
id twice. -/
theorem c1_exactly_one_outcome_witness :
    (settledRids (run (initialState 0) [Event.reqBlock 5, Event.blockMsg 5]).2).Nodup ∧
    settledOf (step (run (initialState 0)
        [Event.subscribeEv .anySub 0, Event.reqTx 7, Event.txMsg ⟨7, 0, 1, 0, 0⟩ 0]).1
        (.txDone ⟨7, 0, 1, 0, 0⟩ 0)).2 = [(0, Outcome.resolvedO)] ∧
    settledOf (step (run (initialState 0) [Event.reqBlock 5]).1 (.blockMsg 5)).2
      = [(0, Outcome.resolvedO)] ∧
    settledOf (step (run (initialState 0) [Event.reqTx 7]).1
        (.notFoundMsg [⟨.transaction, 7⟩])).2 = [(0, Outcome.notFoundO)] ∧
    settledOf (step (run (initialState 0) [Event.reqBlock 5]).1 (.blockReqTimeout 5)).2
      = [(0, Outcome.timedOutO)] ∧
    settledOf (step (run (initialState 0) [Event.reqTx 7]).1 (.txReqTimeout 7)).2
      = [(0, Outcome.timedOutO)] ∧
    timerArmed (reqTimerName ⟨.block, 5⟩)
      (run (initialState 0) [Event.reqBlock 5]).1.timers = true := by
  obtain ⟨h1, h2, h3, h4, h5, h6, h7⟩ := c1_exactly_one_outcome
  refine ⟨h1 0 _, ?_, ?_, ?_, ?_, ?_, ?_⟩
  · exact ((h3 (run (initialState 0)
      [Event.subscribeEv .anySub 0, Event.reqTx 7, Event.txMsg ⟨7, 0, 1, 0, 0⟩ 0]).1
      ⟨7, 0, 1, 0, 0⟩ 0 [0] (by decide) (by decide)).1).trans rfl
  · exact ((h2 (run (initialState 0) [Event.reqBlock 5]).1 5 [0] (by decide)).1).trans rfl
  · exact ((h4 (run (initialState 0) [Event.reqTx 7]).1 ⟨.transaction, 7⟩ [0]
      (by decide)).1).trans rfl
  · exact ((h5 (run (initialState 0) [Event.reqBlock 5]).1 5 [0] (by decide)
      (by decide)).1).trans rfl
  · exact ((h6 (run (initialState 0) [Event.reqTx 7]).1 7 [0] (by decide)
      (by decide)).1).trans rfl
  · exact h7 0 [Event.reqBlock 5] ⟨.block, 5⟩ [0] (by decide)

end CoreJs


